import Mathlib

/-!
Verification of win-qemu-go: descriptor codec, descriptor store and disk provisioning.

A shallow embedding of `createvm.go` and `loadvm.go`.

* Go strings that hold text are modelled as lists of Unicode code points (`Str`),
  that is, as well-formed UTF-8 text; byte offsets of the source become code
  point offsets.
* The content of a descriptor file read by the editor is a byte sequence
  (`Bytes`), well-formed or not: `splitLines` ranges over it rune by rune as Go
  does, so a byte that is not part of a well-formed sequence becomes U+FFFD.
* Go `int`/`int64` values are modelled as `Int`, with the 64-bit range made
  explicit where the source depends on it (`strconv.ParseInt`).
* The operating system (file system and the external `qemu-img` tool) is an
  explicit parameter `Sys σ` over an abstract state `σ`; every interaction of the
  save step with it is recorded, with its result, in a trace of `Event`s.
-/

set_option autoImplicit false

namespace WinQemu

/-- Go `string`, as a list of code points. -/
abbrev Str := List Char

/-! ## String primitives of the Go standard library -/

/-- Cut at the first occurrence of `sep`: the text before it and the text after it. -/
def cutFirst (sep : Char) : Str → Option (Str × Str)
  | [] => none
  | c :: cs =>
    if c = sep then some ([], cs)
    else match cutFirst sep cs with
      | some (a, b) => some (c :: a, b)
      | none => none

/-- Library call `strings.SplitN(s, sep, 2)` for a one-character separator. -/
def splitN2 (sep : Char) (s : Str) : List Str :=
  match cutFirst sep s with
  | some (a, b) => [a, b]
  | none => [s]

/-- Library call `strings.Split(s, sep)` for a one-character separator. -/
def splitChar (sep : Char) : Str → List Str
  | [] => [[]]
  | c :: cs =>
    if c = sep then [] :: splitChar sep cs
    else match splitChar sep cs with
      | h :: t => (c :: h) :: t
      | [] => [[c]]

/-- Library call `strings.Join(elems, sep)`. -/
def joinWith (sep : Str) : List Str → Str
  | [] => []
  | [a] => a
  | a :: b :: rest => a ++ sep ++ joinWith sep (b :: rest)

/-- Library call `strings.LastIndex(s, sep)` for a one-character separator
(`none` stands for `-1`). -/
def lastIndex (sep : Char) : Str → Option Nat
  | [] => none
  | c :: cs =>
    match lastIndex sep cs with
    | some i => some (i + 1)
    | none => if c = sep then some 0 else none

/-- Library predicate `unicode.IsSpace`. -/
def isSpace (c : Char) : Bool :=
  let n := c.toNat
  (9 ≤ n && n ≤ 13) || n = 32 || n = 0x85 || n = 0xA0 || n = 0x1680
    || (0x2000 ≤ n && n ≤ 0x200A) || n = 0x2028 || n = 0x2029
    || n = 0x202F || n = 0x205F || n = 0x3000

/-- Library call `strings.TrimSpace`. -/
def trimSpace (s : Str) : Str :=
  ((s.dropWhile isSpace).reverse.dropWhile isSpace).reverse

/-! ## Bytes and runes: ranging over a Go string -/

/-- A Go string as its bytes (each element a byte value, 0 to 255). -/
abbrev Bytes := List Nat

/-- A continuation byte of UTF-8 (`locb <= b && b <= hicb`). -/
def contByte (b : Nat) : Bool := 0x80 ≤ b && b ≤ 0xBF

/-- The rune `utf8.RuneError`, U+FFFD. -/
def runeError : Char := Char.ofNat 0xFFFD

/-- Value of a two-byte sequence: `rune(s0&mask2)<<6 | rune(s1&maskx)`. -/
def rune2 (s0 s1 : Nat) : Nat := s0 % 32 * 64 + s1 % 64

/-- Value of a three-byte sequence. -/
def rune3 (s0 s1 s2 : Nat) : Nat := s0 % 16 * 4096 + s1 % 64 * 64 + s2 % 64

/-- Value of a four-byte sequence. -/
def rune4 (s0 s1 s2 s3 : Nat) : Nat :=
  s0 % 8 * 262144 + s1 % 64 * 4096 + s2 % 64 * 64 + s3 % 64

/-- A two-byte sequence is accepted: continuation byte, value above `rune1Max`. -/
def ok2 (s0 s1 : Nat) : Bool := contByte s1 && decide (0x7F < rune2 s0 s1)

/-- A three-byte sequence is accepted: continuation bytes, value above
`rune2Max` and not a surrogate. -/
def ok3 (s0 s1 s2 : Nat) : Bool :=
  contByte s1 && contByte s2 && decide (0x7FF < rune3 s0 s1 s2)
    && !(decide (0xD800 ≤ rune3 s0 s1 s2) && decide (rune3 s0 s1 s2 ≤ 0xDFFF))

/-- A four-byte sequence is accepted: continuation bytes, value above
`rune3Max` and at most `maxRune`. -/
def ok4 (s0 s1 s2 s3 : Nat) : Bool :=
  contByte s1 && contByte s2 && contByte s3 && decide (0xFFFF < rune4 s0 s1 s2 s3)
    && decide (rune4 s0 s1 s2 s3 ≤ 0x10FFFF)

/-- One step of `for _, r := range s` on the rest `s` of a string: the rune and
the number of bytes it takes.  A byte below `0x80` is its own rune; otherwise
the runtime decodes a sequence of two to four bytes, and gives U+FFFD with
width one when the sequence is not well-formed. -/
def decodeRune : Bytes → Char × Nat
  | [] => (runeError, 1)
  | s0 :: rest =>
    if s0 < 0x80 then (Char.ofNat s0, 1)
    else if 0xC0 ≤ s0 ∧ s0 < 0xE0 then
      match rest with
      | s1 :: _ => if ok2 s0 s1 then (Char.ofNat (rune2 s0 s1), 2) else (runeError, 1)
      | _ => (runeError, 1)
    else if 0xE0 ≤ s0 ∧ s0 < 0xF0 then
      match rest with
      | s1 :: s2 :: _ =>
        if ok3 s0 s1 s2 then (Char.ofNat (rune3 s0 s1 s2), 3) else (runeError, 1)
      | _ => (runeError, 1)
    else if 0xF0 ≤ s0 ∧ s0 < 0xF8 then
      match rest with
      | s1 :: s2 :: s3 :: _ =>
        if ok4 s0 s1 s2 s3 then (Char.ofNat (rune4 s0 s1 s2 s3), 4) else (runeError, 1)
      | _ => (runeError, 1)
    else (runeError, 1)

/-- The runes of `for _, r := range s`, with a bound on the number of steps. -/
def decodeRunesFuel : Nat → Bytes → Str
  | 0, _ => []
  | fuel + 1, s =>
    if s = [] then []
    else (decodeRune s).1 :: decodeRunesFuel fuel (s.drop (decodeRune s).2)

/-- The runes that `for _, r := range s` yields; every step takes at least one
byte, so the length of `s` bounds the number of steps. -/
def decodeRunes (s : Bytes) : Str := decodeRunesFuel s.length s

/-- Conversion `string(r)` of a rune: its UTF-8 encoding. -/
def utf8EncodeRune (c : Char) : Bytes :=
  let n := c.toNat
  if n < 0x80 then [n]
  else if n < 0x800 then [0xC0 + n / 64, 0x80 + n % 64]
  else if n < 0x10000 then [0xE0 + n / 4096, 0x80 + n / 64 % 64, 0x80 + n % 64]
  else [0xF0 + n / 262144, 0x80 + n / 4096 % 64, 0x80 + n / 64 % 64, 0x80 + n % 64]

/-- The bytes of a text: what `[]byte(s)` holds for a string of text. -/
def utf8 (s : Str) : Bytes := (s.map utf8EncodeRune).flatten

/-- A byte sequence that is well-formed UTF-8 (`utf8.Valid`): decoding and
encoding again gives it back. -/
def validUTF8 (b : Bytes) : Prop := utf8 (decodeRunes b) = b

instance (b : Bytes) : Decidable (validUTF8 b) := by
  unfold validUTF8; exact inferInstance

/-! ## Decimal integers: `strconv.ParseInt(s, 10, 64)`, `strconv.FormatInt(v, 10)` -/

/-- Value of a decimal digit. -/
def digitVal (c : Char) : Option Nat :=
  if 48 ≤ c.toNat ∧ c.toNat ≤ 57 then some (c.toNat - 48) else none

/-- Digit loop of `strconv.ParseUint` in base 10: every character must be a
digit; the accumulator is unbounded, the range is checked by the caller. -/
def parseDigitsFrom (acc : Nat) : Str → Option Nat
  | [] => some acc
  | c :: cs =>
    match digitVal c with
    | some d => parseDigitsFrom (acc * 10 + d) cs
    | none => none

/-- Unsigned part of a decimal literal: at least one digit. -/
def parseDigits (s : Str) : Option Nat :=
  if s = [] then none else parseDigitsFrom 0 s

/-- Library call `strconv.ParseInt(s, 10, 64)`; `none` stands for `err != nil`
(syntax error or value out of the signed 64-bit range). -/
def parseInt (s : Str) : Option Int :=
  match s with
  | [] => none
  | c :: rest =>
    let neg := decide (c = '-')
    let ds := if c = '+' ∨ c = '-' then rest else s
    match parseDigits ds with
    | none => none
    | some un =>
      if !neg && decide (2 ^ 63 ≤ un) then none
      else if neg && decide (2 ^ 63 < un) then none
      else some (if neg then -(un : Int) else (un : Int))

/-- Library call `strconv.FormatInt(v, 10)`, also `fmt.Sprintf` with the verb `%d`. -/
def formatInt (v : Int) : Str :=
  if v < 0 then '-' :: Nat.toDigits 10 v.natAbs else Nat.toDigits 10 v.natAbs

/-! ## Data model -/

/-- The descriptor `VMConfig` of `createvm.go`. -/
structure VMConfig where
  Name : Str := []
  CPU : Str := []
  CPUModel : Str := []
  CPUCores : Str := []
  CPUSockets : Str := []
  CPUThreads : Str := []
  CPUFeatures : Str := []
  CPUAccel : Str := []
  CPUAccelerator : Str := []
  RAM : Str := []
  Disk : Str := []
  GPU : Str := []
  Network : Str := []
  HW : Str := []
  deriving DecidableEq, Repr

/-! ## Descriptor codec (`createvm.go`) -/

/-- Source function `parseDiskInfo`: type before the first colon, capacity after
the last colon of the rest, path in between. -/
def parseDiskInfo (diskInfo : Str) : Str × Str × Str :=
  match splitN2 ':' diskInfo with
  | [diskType, rest] =>
    match lastIndex ':' rest with
    | none => (diskType, rest, [])
    | some idx => (diskType, rest.take idx, rest.drop (idx + 1))
  | _ => ([], [], [])

/-- Disk entry encoding of `updateConfigFromEntries`: `dType+":"+dPath+":"+dCap`. -/
def encodeDisk (dType dPath dCap : Str) : Str :=
  dType ++ ":".toList ++ dPath ++ ":".toList ++ dCap

/-- Disk list encoding of `updateConfigFromEntries`: rows with an empty path are
left out, the others are joined with a semicolon. -/
def encodeDisks (rows : List (Str × Str × Str)) : Str :=
  joinWith ";".toList
    ((rows.filter (fun r => r.2.1 ≠ [])).map (fun r => encodeDisk r.1 r.2.1 r.2.2))

/-- Go `map[string]string` as an association list; the first binding of a key
is the current one. -/
abbrev GoMap := List (Str × Str)

/-- Assignment `m[k] = v`. -/
def GoMap.set (m : GoMap) (k v : Str) : GoMap := (k, v) :: m

/-- Lookup `v, ok := m[k]`. -/
def GoMap.get (m : GoMap) (k : Str) : Option Str :=
  match m with
  | [] => none
  | (k1, v1) :: rest => if k1 = k then some v1 else GoMap.get rest k

/-- Loop body of source function `parseGPUString`. -/
def parseGPUStep (result : GoMap) (pair : Str) : GoMap :=
  match splitN2 '=' pair with
  | [k, v] => GoMap.set result k v
  | _ => result

/-- Source function `parseGPUString`. -/
def parseGPUString (gpuStr : Str) : GoMap :=
  if gpuStr = [] then []
  else (splitChar ',' gpuStr).foldl parseGPUStep []

/-- The five GPU selections of the editor (an empty string means unset). -/
structure GPUSel where
  vga : Str
  display : Str
  device : Str
  gl : Str
  hostmem : Str
  deriving DecidableEq, Repr

/-- The list `gpuPairs` built by `updateConfigFromEntries`. -/
def gpuPairs (g : GPUSel) : List Str :=
  (if g.vga ≠ [] then ["vga=".toList ++ g.vga] else [])
  ++ (if g.display ≠ [] ∧ g.display ≠ "none".toList then ["display=".toList ++ g.display] else [])
  ++ (if g.device ≠ [] then ["device=".toList ++ g.device] else [])
  ++ (if g.gl ≠ [] ∧ g.gl ≠ "off".toList then ["gl=".toList ++ g.gl] else [])
  ++ (if g.hostmem ≠ [] then ["hostmem=".toList ++ g.hostmem] else [])

/-- GPU encoder of `updateConfigFromEntries`: `strings.Join(gpuPairs, ",")`. -/
def encodeGPU (g : GPUSel) : Str := joinWith ",".toList (gpuPairs g)

/-- One encoded pair `key=value`. -/
def encodePair (kv : Str × Str) : Str := kv.1 ++ '=' :: kv.2

/-- The keys and values that `updateConfigFromEntries` emits, in order. -/
def gpuKV (g : GPUSel) : List (Str × Str) :=
  (if g.vga ≠ [] then [("vga".toList, g.vga)] else [])
  ++ (if g.display ≠ [] ∧ g.display ≠ "none".toList then [("display".toList, g.display)] else [])
  ++ (if g.device ≠ [] then [("device".toList, g.device)] else [])
  ++ (if g.gl ≠ [] ∧ g.gl ≠ "off".toList then [("gl".toList, g.gl)] else [])
  ++ (if g.hostmem ≠ [] then [("hostmem".toList, g.hostmem)] else [])

/-- The mapping that the encode policy promises for the selections `g`: `vga`,
`device` and `hostmem` when set, `display` when set and not `none`, `gl` when
set and not `off`, and no other key. -/
def gpuExpected (g : GPUSel) (k : Str) : Option Str :=
  if k = "vga".toList then (if g.vga ≠ [] then some g.vga else none)
  else if k = "display".toList then
    (if g.display ≠ [] ∧ g.display ≠ "none".toList then some g.display else none)
  else if k = "device".toList then (if g.device ≠ [] then some g.device else none)
  else if k = "gl".toList then
    (if g.gl ≠ [] ∧ g.gl ≠ "off".toList then some g.gl else none)
  else if k = "hostmem".toList then (if g.hostmem ≠ [] then some g.hostmem else none)
  else none

/-- No selection contains a comma. -/
def GPUSel.noComma (g : GPUSel) : Prop :=
  ',' ∉ g.vga ∧ ',' ∉ g.display ∧ ',' ∉ g.device ∧ ',' ∉ g.gl ∧ ',' ∉ g.hostmem

instance (g : GPUSel) : Decidable g.noComma := by
  unfold GPUSel.noComma; exact inferInstance

/-- Text made of the lines `ls`, each followed by a line feed. -/
def unlines (ls : List Str) : Str := (ls.map (fun l => l ++ ['\n'])).flatten

/-- Bytes made of the lines `ls`, each followed by a line feed. -/
def unlinesB (ls : List Bytes) : Bytes := (ls.map (fun l => l ++ [10])).flatten

/-- Bytes made of the lines `ls`, each followed by carriage return and line feed. -/
def unlinesCRLFB (ls : List Bytes) : Bytes := (ls.map (fun l => l ++ [13, 10])).flatten

/-- Loop body of source function `splitLines` for the rune `r`: the pair is
`(lines, tmp)`; `tmp += string(r)` keeps `tmp` well-formed, so `tmp` and the
lines are held as text. -/
def splitLinesStep (acc : List Str × Str) (r : Char) : List Str × Str :=
  if r = '\n' then (acc.1 ++ [acc.2], [])
  else if r ≠ '\r' then (acc.1, acc.2 ++ [r])
  else acc

/-- The loop of source function `splitLines` over the runes of its argument,
and the final `if tmp != ""`. -/
def splitLinesRunes (s : Str) : List Str :=
  let acc := s.foldl splitLinesStep ([], [])
  if acc.2 ≠ [] then acc.1 ++ [acc.2] else acc.1

/-- Source function `splitLines` on the bytes of its argument. -/
def splitLines (s : Bytes) : List Str := splitLinesRunes (decodeRunes s)

/-- Loop of source function `splitKeyValue` from offset `i` on. -/
def splitKeyValueFrom (s : Str) (i : Nat) : Str → List Str
  | [] => []
  | ch :: rest =>
    if ch = '=' then [s.take i, s.drop (i + 1)]
    else splitKeyValueFrom s (i + 1) rest

/-- Source function `splitKeyValue`. -/
def splitKeyValue (s : Str) : List Str := splitKeyValueFrom s 0 s

/-- The key switch of the load loop of `EditVMConfig`. -/
def setField (config : VMConfig) (key value : Str) : VMConfig :=
  if key = "name".toList then { config with Name := value }
  else if key = "cpu".toList then { config with CPU := value }
  else if key = "cpuModel".toList then { config with CPUModel := value }
  else if key = "cpuCores".toList then { config with CPUCores := value }
  else if key = "cpuSockets".toList then { config with CPUSockets := value }
  else if key = "cpuThreads".toList then { config with CPUThreads := value }
  else if key = "cpuFeatures".toList then { config with CPUFeatures := value }
  else if key = "cpuAccel".toList then { config with CPUAccel := value }
  else if key = "cpuAccelerator".toList then { config with CPUAccelerator := value }
  else if key = "ram".toList then { config with RAM := value }
  else if key = "disk".toList then { config with Disk := value }
  else if key = "gpu".toList then { config with GPU := value }
  else if key = "network".toList then { config with Network := value }
  else if key = "hw".toList then { config with HW := value }
  else config

/-- Body of the load loop of `EditVMConfig` for one line. -/
def loadLine (config : VMConfig) (line : Str) : VMConfig :=
  if line.length = 0 then config
  else match splitKeyValue line with
    | [key, value] => setField config key value
    | _ => config

/-- The load loop of `EditVMConfig` on the runes of the file content. -/
def parseRunes (data : Str) : VMConfig :=
  (splitLinesRunes data).foldl loadLine {}

/-- The load loop of `EditVMConfig` on the bytes `data` that `ioutil.ReadFile`
returns: the editor's descriptor parser. -/
def parseConfig (data : Bytes) : VMConfig :=
  (splitLines data).foldl loadLine {}

/-- The text `configContent` written by the save step. -/
def configContent (config : VMConfig) : Str :=
  "name=".toList ++ config.Name ++ "\n".toList ++
  "cpuModel=".toList ++ config.CPUModel ++ "\n".toList ++
  "cpuCores=".toList ++ config.CPUCores ++ "\n".toList ++
  "cpuSockets=".toList ++ config.CPUSockets ++ "\n".toList ++
  "cpuThreads=".toList ++ config.CPUThreads ++ "\n".toList ++
  "cpuFeatures=".toList ++ config.CPUFeatures ++ "\n".toList ++
  "cpuAccel=".toList ++ config.CPUAccel ++ "\n".toList ++
  "cpuAccelerator=".toList ++ config.CPUAccelerator ++ "\n".toList ++
  "ram=".toList ++ config.RAM ++ "\n".toList ++
  "disk=".toList ++ config.Disk ++ "\n".toList ++
  "gpu=".toList ++ config.GPU ++ "\n".toList ++
  "network=".toList ++ config.Network ++ "\n".toList ++
  "hw=".toList ++ config.HW ++ "\n".toList

/-- A string without line feed and carriage return. -/
def noLineBreak (s : Str) : Prop := '\n' ∉ s ∧ '\r' ∉ s

instance (s : Str) : Decidable (noLineBreak s) := by
  unfold noLineBreak; exact inferInstance

/-- Every serialised field of the descriptor is free of line breaks. -/
def VMConfig.singleLine (d : VMConfig) : Prop :=
  noLineBreak d.Name ∧ noLineBreak d.CPUModel ∧ noLineBreak d.CPUCores
  ∧ noLineBreak d.CPUSockets ∧ noLineBreak d.CPUThreads ∧ noLineBreak d.CPUFeatures
  ∧ noLineBreak d.CPUAccel ∧ noLineBreak d.CPUAccelerator ∧ noLineBreak d.RAM
  ∧ noLineBreak d.Disk ∧ noLineBreak d.GPU ∧ noLineBreak d.Network ∧ noLineBreak d.HW

instance (d : VMConfig) : Decidable d.singleLine := by
  unfold VMConfig.singleLine; exact inferInstance

/-- Every field of the descriptor, `CPU` included, is free of line breaks. -/
def VMConfig.clean (d : VMConfig) : Prop := noLineBreak d.CPU ∧ d.singleLine

instance (d : VMConfig) : Decidable d.clean := by
  unfold VMConfig.clean; exact inferInstance

/-- The lines of `configContent`, without their terminators. -/
def configLines (config : VMConfig) : List Str :=
  ["name=".toList ++ config.Name, "cpuModel=".toList ++ config.CPUModel,
   "cpuCores=".toList ++ config.CPUCores, "cpuSockets=".toList ++ config.CPUSockets,
   "cpuThreads=".toList ++ config.CPUThreads, "cpuFeatures=".toList ++ config.CPUFeatures,
   "cpuAccel=".toList ++ config.CPUAccel, "cpuAccelerator=".toList ++ config.CPUAccelerator,
   "ram=".toList ++ config.RAM, "disk=".toList ++ config.Disk, "gpu=".toList ++ config.GPU,
   "network=".toList ++ config.Network, "hw=".toList ++ config.HW]

/-! ## Descriptor list (`loadvm.go`) -/

/-- Body of the line loop of `loadVMConfigs`. -/
def listLine (config : VMConfig) (line : Str) : VMConfig :=
  if trimSpace line = [] then config
  else match splitN2 '=' line with
    | [k, v] =>
      let key := trimSpace k
      let value := trimSpace v
      if key = "name".toList then { config with Name := value }
      else if key = "cpuModel".toList then { config with CPUModel := value }
      else config
    | _ => config

/-- The descriptor that `loadVMConfigs` builds from the content of one file. -/
def listConfig (data : Str) : VMConfig :=
  (splitChar '\n' data).foldl listLine {}

/-- Body of the file loop of `loadVMConfigs`; a file is `none` when
`os.ReadFile` fails and `some data` otherwise. -/
def loadVMConfigsStep (configs : List VMConfig) (conf : Option Str) : List VMConfig :=
  match conf with
  | none => configs
  | some data => configs ++ [listConfig data]

/-- Source function `loadVMConfigs` over the files matched by `*.conf`. -/
def loadVMConfigs (confFiles : List (Option Str)) : List VMConfig :=
  confFiles.foldl loadVMConfigsStep []

/-- A line that sets a field in `loadVMConfigs`: not blank, with an equals
sign, and with one of the two known keys before it. -/
def knownKeyLine (line : Str) : Bool :=
  if trimSpace line = [] then false
  else match splitN2 '=' line with
    | [k, _] => decide (trimSpace k = "name".toList ∨ trimSpace k = "cpuModel".toList)
    | _ => false

/-- A corrupt file content: no line of it sets a field. -/
def corrupt (data : Str) : Prop := ∀ line ∈ splitChar '\n' data, knownKeyLine line = false

instance (data : Str) : Decidable (corrupt data) := by
  unfold corrupt; exact inferInstance

/-! ## Disk image provisioning and the save step (`createvm.go`, `saveBtn`) -/

/-- The errors that the save step shows with `dialog.ShowError`. -/
inductive SaveError where
  | emptyName
  | renameConflict
  | createFailed
  | writeFailed
  deriving DecidableEq, Repr

/-- The messages that the save step shows with `dialog.ShowInformation`. -/
inductive SaveInfo where
  | createDegraded
  | saved
  deriving DecidableEq, Repr

/-- One observable step of the save handler: a call to the operating system
with its result, or a dialog. -/
inductive Event where
  | showError (e : SaveError)
  | showInformation (i : SaveInfo)
  | rename (oldPath newPath : Str) (ok : Bool)
  | stat (path : Str) (notExist : Bool)
  | run (args : List Str) (ok : Bool)
  | writeFile (path content : Str) (ok : Bool)
  | closeWindow
  | onSave
  deriving DecidableEq, Repr

/-- The operating system as seen by the save step, over a state `σ`:
`filepath.Join`, `os.Rename`, `os.Stat` followed by `os.IsNotExist`, running
`qemu-img` with an argument list, and `ioutil.WriteFile`.  A call returns
whether it succeeded and the new state. -/
structure Sys (σ : Type) where
  join : Str → Str → Str
  rename : Str → Str → σ → Bool × σ
  notExist : Str → σ → Bool
  run : List Str → σ → Bool × σ
  writeFile : Str → Str → σ → Bool × σ

/-- Result of running (a part of) the save handler: the final state, the trace
of events, and whether the handler returned early. -/
structure Run (σ : Type) where
  state : σ
  trace : List Event
  aborted : Bool

/-- Put events in front of a run. -/
def Run.after {σ : Type} (evs : List Event) (r : Run σ) : Run σ :=
  { r with trace := evs ++ r.trace }

/-- The table `formatMap` with its default `qcow2`. -/
def formatOf (dType : Str) : Str :=
  let format :=
    if dType = "QCOW2".toList then "qcow2".toList
    else if dType = "RAW".toList then "raw".toList
    else if dType = "VHD".toList then "vpc".toList
    else if dType = "VMDK".toList then "vmdk".toList
    else []
  if format = [] then "qcow2".toList else format

/-- The value `capacityVal` of the save step. -/
def capacityVal (dCap : Str) : Int :=
  match parseInt dCap with
  | some v => if v < 1 then 10240 else v
  | none => 10240

/-- The size argument of the create command: `fmt.Sprintf("%dM", capacityVal)`. -/
def sizeArg (dCap : Str) : Str := formatInt (capacityVal dCap) ++ "M".toList

/-- The list `fallbackArgs` of the save step. -/
def fallbackArgs (dType dPath dCap : Str) : List Str :=
  ["create".toList, "-f".toList, formatOf dType, dPath, sizeArg dCap]

/-- The list `cmdArgs` of the save step; `fullAlloc` is `fullAllocCheck.Checked`. -/
def cmdArgs (fullAlloc : Bool) (dType dPath dCap : Str) : List Str :=
  let args := ["create".toList, "-f".toList, formatOf dType, dPath, sizeArg dCap]
  if fullAlloc ∧ formatOf dType = "qcow2".toList then
    args ++ ["-o".toList, "preallocation=full".toList]
  else args

/-- The disk loop of the save step over the pieces of `config.Disk`. -/
def diskLoop {σ : Type} (sys : Sys σ) (fullAlloc : Bool) : List Str → σ → Run σ
  | [], st => ⟨st, [], false⟩
  | diskInfo :: rest, st =>
    match parseDiskInfo diskInfo with
    | (dType, dPath, dCap) =>
      if dPath = [] then diskLoop sys fullAlloc rest st
      else if sys.notExist dPath st then
        let args := cmdArgs fullAlloc dType dPath dCap
        let r1 := sys.run args st
        if r1.1 then
          (diskLoop sys fullAlloc rest r1.2).after [Event.stat dPath true, Event.run args true]
        else
          let fb := fallbackArgs dType dPath dCap
          let r2 := sys.run fb r1.2
          if r2.1 then
            (diskLoop sys fullAlloc rest r2.2).after
              [Event.stat dPath true, Event.run args false, Event.run fb true,
               Event.showInformation SaveInfo.createDegraded]
          else
            ⟨r2.2, [Event.stat dPath true, Event.run args false, Event.run fb false,
                    Event.showError SaveError.createFailed], true⟩
      else (diskLoop sys fullAlloc rest st).after [Event.stat dPath false]

/-- The save step after the name check and the rename: the disk loop, then
`ioutil.WriteFile` of the descriptor text. -/
def saveContent {σ : Type} (sys : Sys σ) (configDir : Str) (fullAlloc : Bool)
    (config : VMConfig) (st : σ) : Run σ :=
  let d := diskLoop sys fullAlloc (splitChar ';' config.Disk) st
  if d.aborted then d
  else
    let path := sys.join configDir (config.Name ++ ".conf".toList)
    let w := sys.writeFile path (configContent config) d.state
    if w.1 then
      ⟨w.2, d.trace ++ [Event.writeFile path (configContent config) true,
                       Event.showInformation SaveInfo.saved, Event.closeWindow, Event.onSave],
       false⟩
    else
      ⟨w.2, d.trace ++ [Event.writeFile path (configContent config) false,
                       Event.showError SaveError.writeFailed], false⟩

/-- The handler of `saveBtn`, after `updateConfigFromEntries` has filled
`config`; `vmName` is the name the editor was opened with. -/
def saveBtn {σ : Type} (sys : Sys σ) (configDir vmName : Str) (fullAlloc : Bool)
    (config : VMConfig) (st : σ) : Run σ :=
  if config.Name = [] then ⟨st, [Event.showError SaveError.emptyName], true⟩
  else if vmName ≠ [] ∧ vmName ≠ config.Name then
    let oldPath := sys.join configDir (vmName ++ ".conf".toList)
    let newPath := sys.join configDir (config.Name ++ ".conf".toList)
    let r := sys.rename oldPath newPath st
    if r.1 then
      (saveContent sys configDir fullAlloc config r.2).after [Event.rename oldPath newPath true]
    else
      ⟨r.2, [Event.rename oldPath newPath false, Event.showError SaveError.renameConflict], true⟩
  else saveContent sys configDir fullAlloc config st

/-- An event that changes the file system or starts the external tool. -/
def Event.mutates : Event → Bool
  | Event.rename _ _ _ => true
  | Event.run _ _ => true
  | Event.writeFile _ _ _ => true
  | _ => false

/-- A rename event. -/
def Event.isRename : Event → Bool
  | Event.rename _ _ _ => true
  | _ => false

/-- A tool invocation event. -/
def Event.isRun : Event → Bool
  | Event.run _ _ => true
  | _ => false

/-- A descriptor write event. -/
def Event.isWrite : Event → Bool
  | Event.writeFile _ _ _ => true
  | _ => false

/-- A file system for examples: the existing paths with their content. -/
abbrev Files := List (Str × Str)

/-- Content of a path, if it exists. -/
def Files.read (fs : Files) (p : Str) : Option Str :=
  match fs with
  | [] => none
  | (q, c) :: rest => if q = p then some c else Files.read rest p

/-- Remove a path. -/
def Files.remove (fs : Files) (p : Str) : Files := fs.filter (fun e => e.1 ≠ p)

/-- An operating system for examples over `Files`: paths are joined with a
slash, a rename fails when the source is missing or the destination exists, the
tool `tool` decides from the argument list alone whether a command succeeds and
a successful `create` makes the image path (fourth argument) exist, writing
always succeeds. -/
def simpleSys (tool : List Str → Bool) : Sys Files where
  join := fun dir name => dir ++ "/".toList ++ name
  rename := fun o n fs =>
    match Files.read fs o, Files.read fs n with
    | some c, none => (true, (n, c) :: Files.remove fs o)
    | _, _ => (false, fs)
  notExist := fun p fs => (Files.read fs p).isNone
  run := fun args fs =>
    if tool args then (true, (args.getD 3 [], []) :: fs) else (false, fs)
  writeFile := fun p c fs => (true, (p, c) :: Files.remove fs p)

/-! ## Capacity floor of an existing disk (`capacityEntry.OnChanged`) -/

/-- The handler `capacityEntry.OnChanged`: the text of the capacity field after
the handler has run on `text`, for the probed size `baseSizeMB`. -/
def capacityOnChanged (baseSizeMB : Int) (text : Str) : Str :=
  if baseSizeMB > 0 then
    match parseInt text with
    | some val => if val < baseSizeMB then formatInt baseSizeMB else text
    | none => text
  else text

/-! ## RAM warning (`updateRamWarning`) -/

/-- The number of low bits that `m` has beyond 53 significant bits (`fuel`
bounds the number of halvings). -/
def excessBits : Nat → Nat → Nat
  | 0, _ => 0
  | fuel + 1, m => if m < 2 ^ 53 then 0 else excessBits fuel (m / 2) + 1

/-- Round a natural number to 53 significant bits, ties to even: the rounding
of IEEE 754 binary64 on a positive value in the normal range. -/
def roundSig53 (m : Nat) : Nat :=
  if m < 2 ^ 53 then m
  else
    let e := excessBits m m
    let q := m / 2 ^ e
    let r := m % 2 ^ e
    let half := 2 ^ (e - 1)
    if half < r ∨ (r = half ∧ q % 2 = 1) then (q + 1) * 2 ^ e else q * 2 ^ e

/-- The `float64` constant `0.8`, as a multiple of `2^-52`:
`0x3FE999999999999A = 3602879701896397 * 2^-52`. -/
def f64Const08 : Nat := 3602879701896397

/-- Conversion `float64(n)` of an integer, as a multiple of `2^-52`. -/
def f64OfInt (n : Int) : Int :=
  if n < 0 then -((roundSig53 n.natAbs * 2 ^ 52 : Nat) : Int)
  else ((roundSig53 n.natAbs * 2 ^ 52 : Nat) : Int)

/-- The product `0.8*float64(max)` for `0 ≤ max`, as a multiple of `2^-52`: the
exact product of the two binary64 values, rounded to binary64. -/
def f64Mul08 (max : Nat) : Int :=
  ((roundSig53 (f64Const08 * roundSig53 max) : Nat) : Int)

/-- Source function `getTotalMemoryMB`: the unsigned 64-bit field `TotalPhys`
divided by `1024 * 1024` (the field is zero when the query fails). -/
def getTotalMemoryMB (totalPhys : Nat) : Nat := totalPhys % 2 ^ 64 / (1024 * 1024)

/-- The limit `max` of `updateRamWarning`: total memory in the selected unit. -/
def ramMax (unitMB : Bool) (totalPhys : Nat) : Nat :=
  if unitMB then getTotalMemoryMB totalPhys else getTotalMemoryMB totalPhys / 1024

/-- The number `num` of `updateRamWarning` after the clamp `if num > max`. -/
def clampRam (num max : Int) : Int := if num > max then max else num

/-- Whether `updateRamWarning` shows the warning for the parsed number `num`
and the limit `max` (total memory in the selected unit, not negative):
`float64(num) >= 0.8*float64(max)` after the clamp. -/
def ramWarningShown (num : Int) (max : Nat) : Bool :=
  decide (f64Mul08 max ≤ f64OfInt (clampRam num max))

/-- Source closure `updateRamWarning` on the text of the RAM field: the text of
the field afterwards and whether the warning is shown. -/
def updateRamWarning (text : Str) (max : Nat) : Str × Bool :=
  match parseInt text with
  | some num =>
    (if num > max then formatInt max else text, ramWarningShown num max)
  | none => (text, false)


/-! ## Auxiliary notions for the codec properties -/

/-- Text made of the lines `ls`, each followed by carriage return and line feed. -/
def unlinesCRLF (ls : List Str) : Str := (ls.map (fun l => l ++ ['\r', '\n'])).flatten

/-- The keys of the switch in the load loop of `EditVMConfig`. -/
def knownKeys : List Str :=
  ["name".toList, "cpu".toList, "cpuModel".toList, "cpuCores".toList, "cpuSockets".toList,
   "cpuThreads".toList, "cpuFeatures".toList, "cpuAccel".toList, "cpuAccelerator".toList,
   "ram".toList, "disk".toList, "gpu".toList, "network".toList, "hw".toList]

/-- A line that the descriptor text may carry without meaning: blank, without
an equals sign, or with a key before the first equals sign that is not known. -/
def unrecognised (line : Str) : Prop :=
  (∀ c ∈ line, isSpace c = true) ∨ '=' ∉ line
    ∨ ∃ k v, line = k ++ '=' :: v ∧ '=' ∉ k ∧ k ∉ knownKeys

/-- Body of the disk load loop of `EditVMConfig`: `rows` are the disk rows
built so far, as type, path and capacity. -/
def loadDisksStep (rows : List (Str × Str × Str)) (diskInfo : Str) : List (Str × Str × Str) :=
  match parseDiskInfo diskInfo with
  | (dType, dPath, dCap) =>
    if dType = [] ∧ dPath = [] then rows else rows ++ [(dType, dPath, dCap)]

/-- The disk load of `EditVMConfig` on the field `config.Disk`. -/
def loadDisks (disk : Str) : List (Str × Str × Str) :=
  if disk ≠ [] then (splitChar ';' disk).foldl loadDisksStep [] else []

/-- A disk row that the amended disk list round trip admits: no colon and no
semicolon in type and capacity, a path that is not empty and has no semicolon. -/
def plainRow (r : Str × Str × Str) : Prop :=
  ':' ∉ r.1 ∧ ';' ∉ r.1 ∧ r.2.1 ≠ [] ∧ ';' ∉ r.2.1 ∧ ':' ∉ r.2.2 ∧ ';' ∉ r.2.2

instance (r : Str × Str × Str) : Decidable (plainRow r) := by
  unfold plainRow; exact inferInstance

/-- The state of the operating system after the call that an event records. -/
def Event.apply {σ : Type} (sys : Sys σ) (ev : Event) (st : σ) : σ :=
  match ev with
  | Event.rename o n _ => (sys.rename o n st).2
  | Event.run args _ => (sys.run args st).2
  | Event.writeFile p c _ => (sys.writeFile p c st).2
  | _ => st

/-- A trace replayed from the state `st`: every event with the state in which
it takes place. -/
def annotate {σ : Type} (sys : Sys σ) : σ → List Event → List (σ × Event)
  | _, [] => []
  | st, ev :: rest => (st, ev) :: annotate sys (ev.apply sys st) rest

/-- The guard of the disk loop, read off an annotated event `x`: when `x` is a
tool invocation, its recorded result is the result of the tool in the state of
`x`, and it belongs to an entry of `disks` with a path that is not empty, as
either the first attempt, with the list `cmdArgs`, in a state in which the path
does not exist, or the retry, with the list `fallbackArgs`, in the state that
the failed first attempt left when it started from a state in which the path did
not exist. -/
def runGuarded {σ : Type} (sys : Sys σ) (fullAlloc : Bool) (disks : List Str)
    (x : σ × Event) : Prop :=
  ∀ args ok, x.2 = Event.run args ok →
    ok = (sys.run args x.1).1
    ∧ ∃ diskInfo ∈ disks, (parseDiskInfo diskInfo).2.1 ≠ []
      ∧ args.get? 3 = some (parseDiskInfo diskInfo).2.1
      ∧ ((sys.notExist (parseDiskInfo diskInfo).2.1 x.1 = true
            ∧ args = cmdArgs fullAlloc (parseDiskInfo diskInfo).1
                (parseDiskInfo diskInfo).2.1 (parseDiskInfo diskInfo).2.2)
          ∨ ∃ s0, sys.notExist (parseDiskInfo diskInfo).2.1 s0 = true
              ∧ (sys.run (cmdArgs fullAlloc (parseDiskInfo diskInfo).1
                  (parseDiskInfo diskInfo).2.1 (parseDiskInfo diskInfo).2.2) s0).1 = false
              ∧ x.1 = (sys.run (cmdArgs fullAlloc (parseDiskInfo diskInfo).1
                  (parseDiskInfo diskInfo).2.1 (parseDiskInfo diskInfo).2.2) s0).2
              ∧ args = fallbackArgs (parseDiskInfo diskInfo).1
                  (parseDiskInfo diskInfo).2.1 (parseDiskInfo diskInfo).2.2)

/-- An operating system for examples that differs from `simpleSys` in the tool:
a `create` command makes the image path (fourth argument) exist also when it
fails, as a tool does that has begun to write the image before it gives up. -/
def leakySys (tool : List Str → Bool) : Sys Files :=
  { simpleSys tool with run := fun args fs => (tool args, (args.getD 3 [], []) :: fs) }

/-- A string without white space at its start and at its end. -/
def noOuterSpace (s : Str) : Prop :=
  (∀ c, s.head? = some c → isSpace c = false) ∧ (∀ c, s.getLast? = some c → isSpace c = false)

instance (s : Str) : Decidable (noOuterSpace s) :=
  decidable_of_iff (((s.head?.map isSpace).getD false = false)
      ∧ ((s.getLast?.map isSpace).getD false = false)) (by
    unfold noOuterSpace
    cases s.head? <;> cases s.getLast? <;> simp)

/-! ## Facts about the string primitives -/

theorem cutFirst_append_sep (sep : Char) (a b : Str) (h : sep ∉ a) :
    cutFirst sep (a ++ sep :: b) = some (a, b) := by
  induction a with
  | nil => simp [cutFirst]
  | cons c cs ih =>
    have hc : c ≠ sep := fun e => h (by simp [e])
    have hcs : sep ∉ cs := fun e => h (by simp [e])
    simp [cutFirst, hc, ih hcs]

theorem cutFirst_none (sep : Char) (a : Str) (h : sep ∉ a) : cutFirst sep a = none := by
  induction a with
  | nil => rfl
  | cons c cs ih =>
    have hc : c ≠ sep := fun e => h (by simp [e])
    have hcs : sep ∉ cs := fun e => h (by simp [e])
    simp [cutFirst, hc, ih hcs]

theorem lastIndex_none (sep : Char) (a : Str) (h : sep ∉ a) : lastIndex sep a = none := by
  induction a with
  | nil => rfl
  | cons c cs ih =>
    have hc : c ≠ sep := fun e => h (by simp [e])
    have hcs : sep ∉ cs := fun e => h (by simp [e])
    simp [lastIndex, hc, ih hcs]

theorem lastIndex_append_sep (sep : Char) (a b : Str) (h : sep ∉ b) :
    lastIndex sep (a ++ sep :: b) = some a.length := by
  induction a with
  | nil => simp [lastIndex, lastIndex_none sep b h]
  | cons c cs ih => simp [lastIndex, ih]

theorem splitLinesStep_foldl_clean (l : Str) (h1 : '\n' ∉ l) (h2 : '\r' ∉ l)
    (ls : List Str) (tmp : Str) :
    l.foldl splitLinesStep (ls, tmp) = (ls, tmp ++ l) := by
  induction l generalizing tmp with
  | nil => simp
  | cons c cs ih =>
    have hc1 : c ≠ '\n' := fun e => h1 (by simp [e])
    have hc2 : c ≠ '\r' := fun e => h2 (by simp [e])
    have hcs1 : '\n' ∉ cs := fun e => h1 (by simp [e])
    have hcs2 : '\r' ∉ cs := fun e => h2 (by simp [e])
    simp [List.foldl_cons, splitLinesStep, hc1, hc2, ih hcs1 hcs2]

theorem splitLinesStep_foldl_unlines (ls : List Str)
    (h : ∀ l ∈ ls, '\n' ∉ l ∧ '\r' ∉ l) (done : List Str) :
    (unlines ls).foldl splitLinesStep (done, []) = (done ++ ls, []) := by
  induction ls generalizing done with
  | nil => simp [unlines]
  | cons l rest ih =>
    have hl := h l (by simp)
    have hrest : ∀ x ∈ rest, '\n' ∉ x ∧ '\r' ∉ x := fun x hx => h x (by simp [hx])
    have e : unlines (l :: rest) = l ++ ('\n' :: unlines rest) := by
      simp [unlines]
    rw [e, List.foldl_append, splitLinesStep_foldl_clean l hl.1 hl.2, List.foldl_cons]
    simp only [splitLinesStep, if_true, List.nil_append]
    rw [ih hrest]
    simp

theorem splitLinesRunes_unlines (ls : List Str) (h : ∀ l ∈ ls, '\n' ∉ l ∧ '\r' ∉ l) :
    splitLinesRunes (unlines ls) = ls := by
  simp [splitLinesRunes, splitLinesStep_foldl_unlines ls h []]

theorem splitKeyValueFrom_key (pre k v : Str) (h : '=' ∉ k) :
    splitKeyValueFrom (pre ++ k ++ '=' :: v) pre.length (k ++ '=' :: v) = [pre ++ k, v] := by
  induction k generalizing pre with
  | nil => simp [splitKeyValueFrom]
  | cons c cs ih =>
    have hc : c ≠ '=' := fun e => h (by simp [e])
    have hcs : '=' ∉ cs := fun e => h (by simp [e])
    have := ih (pre ++ [c]) hcs
    simp only [List.append_assoc, List.singleton_append, List.length_append,
      List.length_singleton, List.cons_append] at this
    simpa [splitKeyValueFrom, hc] using this

theorem splitKeyValue_key (k v : Str) (h : '=' ∉ k) :
    splitKeyValue (k ++ '=' :: v) = [k, v] := by
  have := splitKeyValueFrom_key [] k v h
  simpa [splitKeyValue] using this

/-! ## Disk entry codec -/

/-- C2: for a type `t` and a capacity `c` without a colon and any path `p`
(colons allowed), `parseDiskInfo` applied to `t:p:c` returns exactly `(t, p, c)`;
in particular the Windows style entry `QCOW2:E:\VM\disk.qcow2:10240` and the
entry `RAW:/a:1` parse to their three parts. -/
theorem parseDiskInfo_encodeDisk (t p c : Str) (ht : ':' ∉ t) (hc : ':' ∉ c) :
    parseDiskInfo (encodeDisk t p c) = (t, p, c)
    ∧ parseDiskInfo "QCOW2:E:\\VM\\disk.qcow2:10240".toList
        = ("QCOW2".toList, "E:\\VM\\disk.qcow2".toList, "10240".toList)
    ∧ parseDiskInfo "RAW:/a:1".toList = ("RAW".toList, "/a".toList, "1".toList) := by
  refine ⟨?_, by decide, by decide⟩
  have h1 : encodeDisk t p c = t ++ ':' :: (p ++ ':' :: c) := by
    simp [encodeDisk]
  rw [h1]
  simp [parseDiskInfo, splitN2, cutFirst_append_sep ':' t _ ht,
    lastIndex_append_sep ':' p c hc]

/-- Witness of C2 at the entry `VHD:C:\d.vhd:5`. -/
theorem parseDiskInfo_encodeDisk_witness :
    parseDiskInfo (encodeDisk "VHD".toList "C:\\d.vhd".toList "5".toList)
      = ("VHD".toList, "C:\\d.vhd".toList, "5".toList) :=
  (parseDiskInfo_encodeDisk "VHD".toList "C:\\d.vhd".toList "5".toList
    (by decide) (by decide)).1

/-! ## Runes of a byte sequence -/

theorem decodeRune_width (s : Bytes) :
    1 ≤ (decodeRune s).2 ∧ ((decodeRune s).2 ≤ s.length ∨ s = []) := by
  unfold decodeRune
  split
  · simp
  · rename_i s0 rest
    split
    · simp
    · split
      · split
        · split <;> simp
        · simp
      · split
        · split
          · split <;> simp
          · simp
        · split
          · split
            · split <;> simp
            · simp
          · simp

theorem decodeRunesFuel_eq (f1 f2 : Nat) (s : Bytes) (h1 : s.length ≤ f1) (h2 : s.length ≤ f2) :
    decodeRunesFuel f1 s = decodeRunesFuel f2 s := by
  induction f1 generalizing f2 s with
  | zero =>
    have : s = [] := List.length_eq_zero.mp (by omega)
    subst this
    cases f2 <;> simp [decodeRunesFuel]
  | succ f1 ih =>
    cases f2 with
    | zero =>
      have : s = [] := List.length_eq_zero.mp (by omega)
      subst this
      simp [decodeRunesFuel]
    | succ f2 =>
      simp only [decodeRunesFuel]
      split
      · rfl
      · rename_i hne
        have hw := (decodeRune_width s).1
        have hpos : 0 < s.length := List.length_pos.mpr hne
        congr 1
        apply ih
        · rw [List.length_drop]; omega
        · rw [List.length_drop]; omega

theorem decodeRunes_nil : decodeRunes [] = [] := rfl

theorem decodeRunes_step (s : Bytes) (h : s ≠ []) :
    decodeRunes s = (decodeRune s).1 :: decodeRunes (s.drop (decodeRune s).2) := by
  have hw := (decodeRune_width s).1
  have hpos : 0 < s.length := List.length_pos.mpr h
  obtain ⟨n, hn⟩ : ∃ n, s.length = n + 1 := ⟨s.length - 1, by omega⟩
  unfold decodeRunes
  rw [hn]
  simp only [decodeRunesFuel, if_neg h]
  congr 1
  apply decodeRunesFuel_eq
  · rw [List.length_drop]; omega
  · exact Nat.le_refl _
theorem char_valid (c : Char) :
    c.toNat < 0xD800 ∨ (0xDFFF < c.toNat ∧ c.toNat < 0x110000) := by
  have := c.valid
  simp only [UInt32.isValidChar, Nat.isValidChar] at this
  exact this

theorem decodeRune_encode (c : Char) (rest : Bytes) :
    decodeRune (utf8EncodeRune c ++ rest) = (c, (utf8EncodeRune c).length) := by
  have hv := char_valid c
  have hc : Char.ofNat c.toNat = c := Char.ofNat_toNat c
  unfold utf8EncodeRune
  simp only []
  generalize c.toNat = n at hv hc ⊢
  by_cases h1 : n < 0x80
  · simp only [if_pos h1, List.singleton_append, decodeRune, hc, List.length_singleton]
  rw [if_neg h1]
  by_cases h2 : n < 0x800
  · rw [if_pos h2]
    have a1 : ¬ (0xC0 + n / 64 < 0x80) := by omega
    have a2 : 0xC0 ≤ 0xC0 + n / 64 ∧ 0xC0 + n / 64 < 0xE0 := by omega
    have a3 : rune2 (0xC0 + n / 64) (0x80 + n % 64) = n := by unfold rune2; omega
    have a4 : ok2 (0xC0 + n / 64) (0x80 + n % 64) = true := by
      simp only [ok2, contByte, a3, Bool.and_eq_true, decide_eq_true_eq]
      omega
    simp only [List.cons_append, List.nil_append, decodeRune, if_neg a1, if_pos a2, a4,
      if_true, a3, hc, List.length_cons, List.length_nil]
  rw [if_neg h2]
  by_cases h3 : n < 0x10000
  · rw [if_pos h3]
    have a1 : ¬ (0xE0 + n / 4096 < 0x80) := by omega
    have a2 : ¬ (0xC0 ≤ 0xE0 + n / 4096 ∧ 0xE0 + n / 4096 < 0xE0) := by omega
    have a2' : 0xE0 ≤ 0xE0 + n / 4096 ∧ 0xE0 + n / 4096 < 0xF0 := by omega
    have a3 : rune3 (0xE0 + n / 4096) (0x80 + n / 64 % 64) (0x80 + n % 64) = n := by
      unfold rune3; omega
    have a4 : ok3 (0xE0 + n / 4096) (0x80 + n / 64 % 64) (0x80 + n % 64) = true := by
      simp only [ok3, contByte, a3, Bool.and_eq_true, decide_eq_true_eq, Bool.not_eq_true',
        Bool.and_eq_false_imp, decide_eq_false_iff_not]
      omega
    simp only [List.cons_append, List.nil_append, decodeRune, if_neg a1, if_neg a2, if_pos a2',
      a4, if_true, a3, hc, List.length_cons, List.length_nil]
  rw [if_neg h3]
  have a1 : ¬ (0xF0 + n / 262144 < 0x80) := by omega
  have a2 : ¬ (0xC0 ≤ 0xF0 + n / 262144 ∧ 0xF0 + n / 262144 < 0xE0) := by omega
  have a2' : ¬ (0xE0 ≤ 0xF0 + n / 262144 ∧ 0xF0 + n / 262144 < 0xF0) := by omega
  have a2'' : 0xF0 ≤ 0xF0 + n / 262144 ∧ 0xF0 + n / 262144 < 0xF8 := by omega
  have a3 : rune4 (0xF0 + n / 262144) (0x80 + n / 4096 % 64) (0x80 + n / 64 % 64)
      (0x80 + n % 64) = n := by
    unfold rune4; omega
  have a4 : ok4 (0xF0 + n / 262144) (0x80 + n / 4096 % 64) (0x80 + n / 64 % 64)
      (0x80 + n % 64) = true := by
    simp only [ok4, contByte, a3, Bool.and_eq_true, decide_eq_true_eq]
    omega
  simp only [List.cons_append, List.nil_append, decodeRune, if_neg a1, if_neg a2, if_neg a2',
    if_pos a2'', a4, if_true, a3, hc, List.length_cons, List.length_nil]

theorem utf8EncodeRune_ne_nil (c : Char) : utf8EncodeRune c ≠ [] := by
  unfold utf8EncodeRune
  simp only []
  split_ifs <;> simp

theorem decodeRunes_encode (c : Char) (rest : Bytes) :
    decodeRunes (utf8EncodeRune c ++ rest) = c :: decodeRunes rest := by
  have hne : utf8EncodeRune c ++ rest ≠ [] := by
    simp [utf8EncodeRune_ne_nil c]
  rw [decodeRunes_step _ hne, decodeRune_encode]
  simp

theorem decodeRunes_utf8 (t : Str) : decodeRunes (utf8 t) = t := by
  induction t with
  | nil => rfl
  | cons c cs ih =>
    have e : utf8 (c :: cs) = utf8EncodeRune c ++ utf8 cs := by
      simp [utf8]
    rw [e, decodeRunes_encode, ih]

theorem decodeRune_lookahead (a b : Bytes) (x : Nat) (ha : a ≠ []) (hx : contByte x = false) :
    decodeRune (a ++ x :: b) = decodeRune a := by
  have k2 : ∀ s0, ok2 s0 x = false := by intro s0; simp [ok2, hx]
  have k3a : ∀ s0 s2, ok3 s0 x s2 = false := by intro s0 s2; simp [ok3, hx]
  have k3b : ∀ s0 s1, ok3 s0 s1 x = false := by intro s0 s1; simp [ok3, hx]
  have k4a : ∀ s0 s2 s3, ok4 s0 x s2 s3 = false := by intro s0 s2 s3; simp [ok4, hx]
  have k4b : ∀ s0 s1 s3, ok4 s0 s1 x s3 = false := by intro s0 s1 s3; simp [ok4, hx]
  have k4c : ∀ s0 s1 s2, ok4 s0 s1 s2 x = false := by intro s0 s1 s2; simp [ok4, hx]
  cases a with
  | nil => exact absurd rfl ha
  | cons s0 rest =>
    cases rest with
    | nil =>
      cases b with
      | nil => simp [decodeRune, k2, k3a, k4a]
      | cons b0 b1 =>
        cases b1 with
        | nil => simp [decodeRune, k2, k3a, k4a]
        | cons b2 b3 => simp [decodeRune, k2, k3a, k4a]
    | cons s1 rest1 =>
      cases rest1 with
      | nil =>
        cases b with
        | nil => simp [decodeRune, k3b, k4b]
        | cons b0 b1 => simp [decodeRune, k3b, k4b]
      | cons s2 rest2 =>
        cases rest2 with
        | nil => simp [decodeRune, k4c]
        | cons s3 rest3 => simp [decodeRune]

theorem decodeRunes_append_ascii (x : Nat) (hx : x < 0x80) (b : Bytes) :
    ∀ (n : Nat) (a : Bytes), a.length ≤ n →
      decodeRunes (a ++ x :: b) = decodeRunes a ++ Char.ofNat x :: decodeRunes b := by
  have hc : contByte x = false := by
    simp only [contByte, Bool.and_eq_false_imp, decide_eq_true_eq, decide_eq_false_iff_not]
    omega
  have h0 : decodeRunes (x :: b) = Char.ofNat x :: decodeRunes b := by
    rw [decodeRunes_step _ (by simp)]
    simp [decodeRune, hx]
  intro n
  induction n with
  | zero =>
    intro a ha
    have : a = [] := List.length_eq_zero.mp (by omega)
    subst this
    simpa [decodeRunes_nil] using h0
  | succ n ih =>
    intro a ha
    by_cases hne : a = []
    · subst hne
      simpa [decodeRunes_nil] using h0
    · have hw := decodeRune_width a
      have hw2 : (decodeRune a).2 ≤ a.length := by
        rcases hw.2 with h | h
        · exact h
        · exact absurd h hne
      have hpos : 0 < a.length := List.length_pos.mpr hne
      rw [decodeRunes_step (a ++ x :: b) (by simp), decodeRune_lookahead a b x hne hc,
        decodeRunes_step a hne, List.drop_append_of_le_length hw2,
        ih (a.drop (decodeRune a).2) (by rw [List.length_drop]; omega)]
      simp

theorem utf8_append (a b : Str) : utf8 (a ++ b) = utf8 a ++ utf8 b := by
  simp [utf8]

theorem splitLines_utf8 (t : Str) : splitLines (utf8 t) = splitLinesRunes t := by
  rw [splitLines, decodeRunes_utf8]

theorem parseConfig_utf8 (t : Str) : parseConfig (utf8 t) = parseRunes t := by
  rw [parseConfig, splitLines_utf8]
  rfl

theorem parseConfig_eq_parseRunes (data : Bytes) :
    parseConfig data = parseRunes (decodeRunes data) := rfl

theorem toNat_ofNat_valid (n : Nat) (h : n < 0xD800 ∨ (0xDFFF < n ∧ n < 0x110000)) :
    (Char.ofNat n).toNat = n := by
  have hv : n.isValidChar := h
  unfold Char.ofNat
  rw [dif_pos hv]
  simp [Char.ofNatAux, Char.toNat, UInt32.toNat]

theorem decodeRune_low (s : Bytes) (hne : s ≠ []) (h : (decodeRune s).1.toNat < 0x80) :
    (decodeRune s).1.toNat ∈ s := by
  have herr : ¬ (runeError.toNat < 0x80) := by decide
  cases s with
  | nil => exact absurd rfl hne
  | cons s0 rest =>
    simp only [decodeRune] at h ⊢
    by_cases h0 : s0 < 0x80
    · rw [if_pos h0]
      rw [toNat_ofNat_valid s0 (by omega)]
      simp
    · rw [if_neg h0] at h
      exfalso
      split at h
      · split at h
        · split at h
          · rename_i s1 _ hok
            simp only [ok2, Bool.and_eq_true, decide_eq_true_eq] at hok
            have hr : rune2 s0 s1 < 0xD800 := by unfold rune2; omega
            rw [toNat_ofNat_valid _ (Or.inl hr)] at h
            omega
          · exact herr h
        · exact herr h
      · split at h
        · split at h
          · split at h
            · rename_i s1 s2 _ hok
              simp only [ok3, Bool.and_eq_true, decide_eq_true_eq, Bool.not_eq_true',
                Bool.and_eq_false_imp, decide_eq_false_iff_not] at hok
              have hr : rune3 s0 s1 s2 < 0x10000 := by unfold rune3; omega
              rw [toNat_ofNat_valid _ (by omega)] at h
              omega
            · exact herr h
          · exact herr h
        · split at h
          · split at h
            · split at h
              · rename_i s1 s2 s3 _ hok
                simp only [ok4, Bool.and_eq_true, decide_eq_true_eq] at hok
                rw [toNat_ofNat_valid _ (by omega)] at h
                omega
              · exact herr h
            · exact herr h
          · exact herr h

theorem decodeRunes_low (c : Char) (hc : c.toNat < 0x80) :
    ∀ (n : Nat) (s : Bytes), s.length ≤ n → c ∈ decodeRunes s → c.toNat ∈ s := by
  intro n
  induction n with
  | zero =>
    intro s hs hm
    have : s = [] := List.length_eq_zero.mp (by omega)
    subst this
    simp [decodeRunes_nil] at hm
  | succ n ih =>
    intro s hs hm
    by_cases hne : s = []
    · subst hne
      simp [decodeRunes_nil] at hm
    · have hw := (decodeRune_width s).1
      have hpos : 0 < s.length := List.length_pos.mpr hne
      rw [decodeRunes_step s hne, List.mem_cons] at hm
      rcases hm with e | hm
      · rw [e] at hc ⊢
        exact decodeRune_low s hne hc
      · exact List.mem_of_mem_drop
          (ih (s.drop (decodeRune s).2) (by rw [List.length_drop]; omega) hm)

theorem noLineBreak_decodeRunes (l : Bytes) (h : 10 ∉ l ∧ 13 ∉ l) :
    noLineBreak (decodeRunes l) :=
  ⟨fun hm => h.1 (decodeRunes_low '\n' (by decide) l.length l (Nat.le_refl _) hm),
   fun hm => h.2 (decodeRunes_low '\r' (by decide) l.length l (Nat.le_refl _) hm)⟩

theorem decodeRunes_line (l rest : Bytes) :
    decodeRunes (l ++ 10 :: rest) = decodeRunes l ++ '\n' :: decodeRunes rest :=
  decodeRunes_append_ascii 10 (by decide) rest l.length l (Nat.le_refl _)

theorem decodeRunes_cr (l rest : Bytes) :
    decodeRunes (l ++ 13 :: rest) = decodeRunes l ++ '\r' :: decodeRunes rest :=
  decodeRunes_append_ascii 13 (by decide) rest l.length l (Nat.le_refl _)

theorem decodeRunes_unlinesB (ls : List Bytes) :
    decodeRunes (unlinesB ls) = unlines (ls.map decodeRunes) := by
  induction ls with
  | nil => rfl
  | cons l rest ih =>
    have e : unlinesB (l :: rest) = l ++ 10 :: unlinesB rest := by
      simp [unlinesB]
    rw [e, decodeRunes_line, ih]
    simp [unlines]

theorem decodeRunes_unlinesCRLFB (ls : List Bytes) :
    decodeRunes (unlinesCRLFB ls) = unlinesCRLF (ls.map decodeRunes) := by
  induction ls with
  | nil => rfl
  | cons l rest ih =>
    have e : unlinesCRLFB (l :: rest) = l ++ 13 :: ([] ++ 10 :: unlinesCRLFB rest) := by
      simp [unlinesCRLFB]
    rw [e, decodeRunes_cr, decodeRunes_line, ih]
    simp [unlinesCRLF, decodeRunes_nil]

/-! ## Descriptor text: save then load -/

theorem configContent_eq_unlines (d : VMConfig) : configContent d = unlines (configLines d) := by
  simp [configContent, unlines, configLines]

theorem loadLine_key (cfg : VMConfig) (k v : Str) (h : '=' ∉ k) :
    loadLine cfg (k ++ '=' :: v) = setField cfg k v := by
  simp [loadLine, splitKeyValue_key k v h]

theorem noLineBreak_key (k v : Str) (hk : noLineBreak k) (hv : noLineBreak v) :
    '\n' ∉ k ++ v ∧ '\r' ∉ k ++ v := by
  simp only [noLineBreak] at hk hv
  simp [hk.1, hk.2, hv.1, hv.2]

set_option maxRecDepth 100000 in
/-- C1: the round trip of the claim fails on the code for a descriptor whose
hardware field has two lines (the field is a multi-line entry of the editor):
the save step writes the field unescaped, and loading the written bytes gives
back only the first line of the field. -/
theorem parseConfig_configContent_multiline :
    (parseConfig (utf8 (configContent
      { Name := "vm".toList, HW := "-boot d\n-usb".toList }))).HW = "-boot d".toList
    ∧ (parseConfig (utf8 (configContent
      { Name := "vm".toList, HW := "-boot d\n-usb".toList }))).HW ≠ "-boot d\n-usb".toList := by
  decide

theorem parseRunes_saved (d : VMConfig) (h : d.singleLine) :
    parseRunes (configContent d) = { d with CPU := [] } := by
  obtain ⟨h1, h2, h3, h4, h5, h6, h7, h8, h9, h10, h11, h12, h13⟩ := h
  have hl : ∀ l ∈ configLines d, '\n' ∉ l ∧ '\r' ∉ l := by
    intro l hl
    simp only [configLines, List.mem_cons, List.mem_singleton, List.not_mem_nil, or_false] at hl
    rcases hl with e | e | e | e | e | e | e | e | e | e | e | e | e <;> subst e <;>
      refine noLineBreak_key _ _ (by decide) ?_ <;> assumption
  have hk : ∀ (cfg : VMConfig) (k v : Str), '=' ∉ k →
      loadLine cfg (k ++ '=' :: v) = setField cfg k v := loadLine_key
  rw [parseRunes, configContent_eq_unlines, splitLinesRunes_unlines _ hl]
  simp only [configLines, List.foldl_cons, List.foldl_nil]
  have e1 : ∀ (cfg : VMConfig) (v : Str),
      loadLine cfg ("name=".toList ++ v) = { cfg with Name := v } :=
    fun cfg v => (hk cfg "name".toList v (by decide)).trans rfl
  have e2 : ∀ (cfg : VMConfig) (v : Str),
      loadLine cfg ("cpuModel=".toList ++ v) = { cfg with CPUModel := v } :=
    fun cfg v => (hk cfg "cpuModel".toList v (by decide)).trans rfl
  have e3 : ∀ (cfg : VMConfig) (v : Str),
      loadLine cfg ("cpuCores=".toList ++ v) = { cfg with CPUCores := v } :=
    fun cfg v => (hk cfg "cpuCores".toList v (by decide)).trans rfl
  have e4 : ∀ (cfg : VMConfig) (v : Str),
      loadLine cfg ("cpuSockets=".toList ++ v) = { cfg with CPUSockets := v } :=
    fun cfg v => (hk cfg "cpuSockets".toList v (by decide)).trans rfl
  have e5 : ∀ (cfg : VMConfig) (v : Str),
      loadLine cfg ("cpuThreads=".toList ++ v) = { cfg with CPUThreads := v } :=
    fun cfg v => (hk cfg "cpuThreads".toList v (by decide)).trans rfl
  have e6 : ∀ (cfg : VMConfig) (v : Str),
      loadLine cfg ("cpuFeatures=".toList ++ v) = { cfg with CPUFeatures := v } :=
    fun cfg v => (hk cfg "cpuFeatures".toList v (by decide)).trans rfl
  have e7 : ∀ (cfg : VMConfig) (v : Str),
      loadLine cfg ("cpuAccel=".toList ++ v) = { cfg with CPUAccel := v } :=
    fun cfg v => (hk cfg "cpuAccel".toList v (by decide)).trans rfl
  have e8 : ∀ (cfg : VMConfig) (v : Str),
      loadLine cfg ("cpuAccelerator=".toList ++ v) = { cfg with CPUAccelerator := v } :=
    fun cfg v => (hk cfg "cpuAccelerator".toList v (by decide)).trans rfl
  have e9 : ∀ (cfg : VMConfig) (v : Str),
      loadLine cfg ("ram=".toList ++ v) = { cfg with RAM := v } :=
    fun cfg v => (hk cfg "ram".toList v (by decide)).trans rfl
  have e10 : ∀ (cfg : VMConfig) (v : Str),
      loadLine cfg ("disk=".toList ++ v) = { cfg with Disk := v } :=
    fun cfg v => (hk cfg "disk".toList v (by decide)).trans rfl
  have e11 : ∀ (cfg : VMConfig) (v : Str),
      loadLine cfg ("gpu=".toList ++ v) = { cfg with GPU := v } :=
    fun cfg v => (hk cfg "gpu".toList v (by decide)).trans rfl
  have e12 : ∀ (cfg : VMConfig) (v : Str),
      loadLine cfg ("network=".toList ++ v) = { cfg with Network := v } :=
    fun cfg v => (hk cfg "network".toList v (by decide)).trans rfl
  have e13 : ∀ (cfg : VMConfig) (v : Str),
      loadLine cfg ("hw=".toList ++ v) = { cfg with HW := v } :=
    fun cfg v => (hk cfg "hw".toList v (by decide)).trans rfl
  rw [e1, e2, e3, e4, e5, e6, e7, e8, e9, e10, e11, e12, e13]

theorem splitLinesStep_foldl_clean_inv (s : Str) (acc : List Str × Str)
    (h1 : ∀ l ∈ acc.1, noLineBreak l) (h2 : noLineBreak acc.2) :
    (∀ l ∈ (s.foldl splitLinesStep acc).1, noLineBreak l)
    ∧ noLineBreak (s.foldl splitLinesStep acc).2 := by
  induction s generalizing acc with
  | nil => exact ⟨h1, h2⟩
  | cons c cs ih =>
    rw [List.foldl_cons]
    apply ih
    · unfold splitLinesStep
      split
      · intro l hl
        simp only [List.mem_append, List.mem_singleton] at hl
        rcases hl with hl | hl
        · exact h1 l hl
        · rw [hl]; exact h2
      · split
        · exact h1
        · exact h1
    · unfold splitLinesStep
      split
      · exact ⟨by simp, by simp⟩
      · rename_i hn
        split
        · rename_i hr
          refine ⟨?_, ?_⟩
          · simp only [List.mem_append, List.mem_singleton, not_or]
            exact ⟨h2.1, fun e => hn e.symm⟩
          · simp only [List.mem_append, List.mem_singleton, not_or]
            exact ⟨h2.2, fun e => hr e.symm⟩
        · exact h2

theorem splitLinesRunes_clean (s : Str) : ∀ l ∈ splitLinesRunes s, noLineBreak l := by
  have h := splitLinesStep_foldl_clean_inv s ([], []) (by simp) ⟨by simp, by simp⟩
  unfold splitLinesRunes
  simp only []
  split
  · intro l hl
    simp only [List.mem_append, List.mem_singleton] at hl
    rcases hl with hl | hl
    · exact h.1 l hl
    · rw [hl]; exact h.2
  · exact h.1

theorem splitKeyValueFrom_shape (s : Str) (i : Nat) (rest : Str) :
    splitKeyValueFrom s i rest = [] ∨
      ∃ j, splitKeyValueFrom s i rest = [s.take j, s.drop (j + 1)] := by
  induction rest generalizing i with
  | nil => exact Or.inl rfl
  | cons c cs ih =>
    unfold splitKeyValueFrom
    split
    · exact Or.inr ⟨i, rfl⟩
    · exact ih (i + 1)

theorem noLineBreak_drop (s : Str) (n : Nat) (h : noLineBreak s) : noLineBreak (s.drop n) :=
  ⟨fun hm => h.1 (List.mem_of_mem_drop hm), fun hm => h.2 (List.mem_of_mem_drop hm)⟩

theorem setField_clean (cfg : VMConfig) (k v : Str) (hc : cfg.clean) (hv : noLineBreak v) :
    (setField cfg k v).clean := by
  obtain ⟨h0, h1, h2, h3, h4, h5, h6, h7, h8, h9, h10, h11, h12, h13⟩ := hc
  unfold setField
  by_cases e1 : k = "name".toList
  · rw [if_pos e1]; exact ⟨h0, hv, h2, h3, h4, h5, h6, h7, h8, h9, h10, h11, h12, h13⟩
  rw [if_neg e1]
  by_cases e0 : k = "cpu".toList
  · rw [if_pos e0]; exact ⟨hv, h1, h2, h3, h4, h5, h6, h7, h8, h9, h10, h11, h12, h13⟩
  rw [if_neg e0]
  by_cases e2 : k = "cpuModel".toList
  · rw [if_pos e2]; exact ⟨h0, h1, hv, h3, h4, h5, h6, h7, h8, h9, h10, h11, h12, h13⟩
  rw [if_neg e2]
  by_cases e3 : k = "cpuCores".toList
  · rw [if_pos e3]; exact ⟨h0, h1, h2, hv, h4, h5, h6, h7, h8, h9, h10, h11, h12, h13⟩
  rw [if_neg e3]
  by_cases e4 : k = "cpuSockets".toList
  · rw [if_pos e4]; exact ⟨h0, h1, h2, h3, hv, h5, h6, h7, h8, h9, h10, h11, h12, h13⟩
  rw [if_neg e4]
  by_cases e5 : k = "cpuThreads".toList
  · rw [if_pos e5]; exact ⟨h0, h1, h2, h3, h4, hv, h6, h7, h8, h9, h10, h11, h12, h13⟩
  rw [if_neg e5]
  by_cases e6 : k = "cpuFeatures".toList
  · rw [if_pos e6]; exact ⟨h0, h1, h2, h3, h4, h5, hv, h7, h8, h9, h10, h11, h12, h13⟩
  rw [if_neg e6]
  by_cases e7 : k = "cpuAccel".toList
  · rw [if_pos e7]; exact ⟨h0, h1, h2, h3, h4, h5, h6, hv, h8, h9, h10, h11, h12, h13⟩
  rw [if_neg e7]
  by_cases e8 : k = "cpuAccelerator".toList
  · rw [if_pos e8]; exact ⟨h0, h1, h2, h3, h4, h5, h6, h7, hv, h9, h10, h11, h12, h13⟩
  rw [if_neg e8]
  by_cases e9 : k = "ram".toList
  · rw [if_pos e9]; exact ⟨h0, h1, h2, h3, h4, h5, h6, h7, h8, hv, h10, h11, h12, h13⟩
  rw [if_neg e9]
  by_cases e10 : k = "disk".toList
  · rw [if_pos e10]; exact ⟨h0, h1, h2, h3, h4, h5, h6, h7, h8, h9, hv, h11, h12, h13⟩
  rw [if_neg e10]
  by_cases e11 : k = "gpu".toList
  · rw [if_pos e11]; exact ⟨h0, h1, h2, h3, h4, h5, h6, h7, h8, h9, h10, hv, h12, h13⟩
  rw [if_neg e11]
  by_cases e12 : k = "network".toList
  · rw [if_pos e12]; exact ⟨h0, h1, h2, h3, h4, h5, h6, h7, h8, h9, h10, h11, hv, h13⟩
  rw [if_neg e12]
  by_cases e13 : k = "hw".toList
  · rw [if_pos e13]; exact ⟨h0, h1, h2, h3, h4, h5, h6, h7, h8, h9, h10, h11, h12, hv⟩
  rw [if_neg e13]
  exact ⟨h0, h1, h2, h3, h4, h5, h6, h7, h8, h9, h10, h11, h12, h13⟩

theorem loadLine_clean (cfg : VMConfig) (line : Str) (hc : cfg.clean) (hl : noLineBreak line) :
    (loadLine cfg line).clean := by
  unfold loadLine
  split
  · exact hc
  · split
    · rename_i key value hkv
      rcases splitKeyValueFrom_shape line 0 line with h | ⟨j, h⟩
      · rw [splitKeyValue, h] at hkv
        exact absurd hkv (by simp)
      · rw [splitKeyValue, h] at hkv
        have hv : value = line.drop (j + 1) := by
          have := List.cons.inj hkv
          exact (List.cons.inj this.2).1.symm
        rw [hv]
        exact setField_clean cfg key _ hc (noLineBreak_drop line _ hl)
    · exact hc

theorem parseRunes_clean (data : Str) : (parseRunes data).clean := by
  have key : ∀ (ls : List Str) (cfg : VMConfig), cfg.clean → (∀ l ∈ ls, noLineBreak l) →
      (ls.foldl loadLine cfg).clean := by
    intro ls
    induction ls with
    | nil => intro cfg hc _; exact hc
    | cons l rest ih =>
      intro cfg hc hl
      rw [List.foldl_cons]
      exact ih _ (loadLine_clean cfg l hc (hl l (by simp))) (fun x hx => hl x (by simp [hx]))
  exact key _ _ (by decide) (splitLinesRunes_clean data)

/-- A descriptor whose serialised fields hold no line break is loaded back from
the written bytes, in every serialised field. -/
theorem parseConfig_saved (d : VMConfig) (h : d.singleLine) :
    parseConfig (utf8 (configContent d)) = { d with CPU := [] } := by
  rw [parseConfig_utf8]
  exact parseRunes_saved d h

/-- A descriptor that is loaded back from the written bytes has no line break in
any serialised field. -/
theorem singleLine_of_loaded (d : VMConfig)
    (h : parseConfig (utf8 (configContent d)) = { d with CPU := [] }) : d.singleLine := by
  rw [parseConfig_utf8] at h
  have hc := (parseRunes_clean (configContent d)).2
  rw [h] at hc
  exact hc

/-! ## Descriptor list -/

theorem loadVMConfigs_foldl (dir : List (Option Str)) (acc : List VMConfig) :
    dir.foldl loadVMConfigsStep acc = acc ++ (dir.filterMap id).map listConfig := by
  induction dir generalizing acc with
  | nil => simp
  | cons f rest ih =>
    cases f with
    | none => simp [List.foldl_cons, loadVMConfigsStep, ih]
    | some data => simp [List.foldl_cons, loadVMConfigsStep, ih]

theorem listLine_not_known (cfg : VMConfig) (line : Str) (h : knownKeyLine line = false) :
    listLine cfg line = cfg := by
  unfold knownKeyLine at h
  unfold listLine
  split
  · rfl
  · rename_i hne
    rw [if_neg hne] at h
    split
    · rename_i k v hkv
      rw [hkv] at h
      simp only [decide_eq_false_iff_not, not_or] at h
      have h1 := h.1
      have h2 := h.2
      simp only [String.toList] at h1 h2
      simp [h1, h2]
    · rfl

theorem foldl_listLine_corrupt (ls : List Str) (cfg : VMConfig)
    (h : ∀ line ∈ ls, knownKeyLine line = false) : ls.foldl listLine cfg = cfg := by
  induction ls generalizing cfg with
  | nil => rfl
  | cons l rest ih =>
    rw [List.foldl_cons, listLine_not_known cfg l (h l (by simp))]
    exact ih cfg (fun x hx => h x (by simp [hx]))

/-- C3, as stated, fails: for a directory with one corrupt file and two valid
files `loadVMConfigs` returns three descriptors, the first of them empty, and
not the two valid descriptors alone. -/
theorem loadVMConfigs_corrupt_counted :
    corrupt "not a descriptor".toList
    ∧ loadVMConfigs [some "not a descriptor".toList,
        some "name=a\ncpuModel=x\n".toList, some "name=b\ncpuModel=y\n".toList]
      = [{}, { Name := "a".toList, CPUModel := "x".toList },
         { Name := "b".toList, CPUModel := "y".toList }]
    ∧ (loadVMConfigs [some "not a descriptor".toList,
        some "name=a\ncpuModel=x\n".toList, some "name=b\ncpuModel=y\n".toList]).length ≠ 2 := by
  decide

/-- C3, amended: `loadVMConfigs` returns one descriptor for every readable
file, in directory order; an unreadable file contributes no element and does not
stop the enumeration; a readable corrupt file contributes the empty descriptor
(so one corrupt and two valid files give three descriptors). -/
theorem loadVMConfigs_readable (dir : List (Option Str)) :
    loadVMConfigs dir = (dir.filterMap id).map listConfig
    ∧ (loadVMConfigs dir).length = (dir.filter Option.isSome).length
    ∧ ∀ data, corrupt data → listConfig data = {} := by
  have h := loadVMConfigs_foldl dir []
  have hlen : ∀ l : List (Option Str),
      (l.filterMap id).length = (l.filter Option.isSome).length := by
    intro l
    induction l with
    | nil => rfl
    | cons f rest ih => cases f <;> simp [List.filterMap_cons, List.filter_cons, ih]
  refine ⟨by simpa [loadVMConfigs] using h, ?_, ?_⟩
  · rw [loadVMConfigs, h]
    simp only [List.nil_append, List.length_map]
    exact hlen dir
  · intro data hc
    exact foldl_listLine_corrupt _ _ hc

/-- Witness of C3 (amended): an unreadable file between two readable ones, and
a corrupt content. -/
theorem loadVMConfigs_readable_witness :
    loadVMConfigs [some "name=a\n".toList, none, some "x".toList]
      = [{ Name := "a".toList }, {}]
    ∧ corrupt "x".toList ∧ listConfig "x".toList = {} :=
  ⟨(loadVMConfigs_readable _).1.trans (by decide), by decide,
   (loadVMConfigs_readable []).2.2 _ (by decide)⟩

/-! ## The save step -/

theorem diskLoop_trace {σ : Type} (sys : Sys σ) (fullAlloc : Bool) (disks : List Str) (st : σ) :
    ∀ ev ∈ (diskLoop sys fullAlloc disks st).trace, ev.isRename = false ∧ ev.isWrite = false := by
  induction disks generalizing st with
  | nil => simp [diskLoop]
  | cons diskInfo rest ih =>
    rcases hp : parseDiskInfo diskInfo with ⟨dType, dPath, dCap⟩
    simp only [diskLoop, hp]
    split
    · exact ih st
    · split
      · split
        · intro ev hev
          simp only [Run.after, List.mem_append, List.mem_cons, List.mem_singleton,
            List.not_mem_nil, or_false] at hev
          rcases hev with (e | e) | hev
          · subst e; exact ⟨rfl, rfl⟩
          · subst e; exact ⟨rfl, rfl⟩
          · exact ih _ ev hev
        · split
          · intro ev hev
            simp only [Run.after, List.mem_append, List.mem_cons, List.mem_singleton,
              List.not_mem_nil, or_false] at hev
            rcases hev with (e | e | e | e) | hev
            · subst e; exact ⟨rfl, rfl⟩
            · subst e; exact ⟨rfl, rfl⟩
            · subst e; exact ⟨rfl, rfl⟩
            · subst e; exact ⟨rfl, rfl⟩
            · exact ih _ ev hev
          · intro ev hev
            simp only [List.mem_cons, List.mem_singleton, List.not_mem_nil, or_false] at hev
            rcases hev with e | e | e | e
            · subst e; exact ⟨rfl, rfl⟩
            · subst e; exact ⟨rfl, rfl⟩
            · subst e; exact ⟨rfl, rfl⟩
            · subst e; exact ⟨rfl, rfl⟩
      · intro ev hev
        simp only [Run.after, List.mem_append, List.mem_cons, List.mem_singleton,
          List.not_mem_nil, or_false] at hev
        rcases hev with e | hev
        · subst e; exact ⟨rfl, rfl⟩
        · exact ih _ ev hev

theorem saveContent_trace_no_rename {σ : Type} (sys : Sys σ) (configDir : Str)
    (fullAlloc : Bool) (config : VMConfig) (st : σ) :
    ∀ ev ∈ (saveContent sys configDir fullAlloc config st).trace, ev.isRename = false := by
  have hd := diskLoop_trace sys fullAlloc (splitChar ';' config.Disk) st
  simp only [saveContent]
  split
  · exact fun ev hev => (hd ev hev).1
  · split
    · intro ev hev
      simp only [List.mem_append, List.mem_cons, List.mem_singleton,
        List.not_mem_nil, or_false] at hev
      rcases hev with hev | e | e | e | e
      · exact (hd ev hev).1
      all_goals (subst e; rfl)
    · intro ev hev
      simp only [List.mem_append, List.mem_cons, List.mem_singleton,
        List.not_mem_nil, or_false] at hev
      rcases hev with hev | e | e
      · exact (hd ev hev).1
      all_goals (subst e; rfl)

/-- C4: when the Name field is empty the save step shows the EmptyName error
and returns; it attempts no rename, starts no disk image creation and writes no
descriptor, and the state of the file system is the one it started from. -/
theorem saveBtn_empty_name {σ : Type} (sys : Sys σ) (configDir vmName : Str)
    (fullAlloc : Bool) (config : VMConfig) (st : σ) (h : config.Name = []) :
    (saveBtn sys configDir vmName fullAlloc config st).state = st
    ∧ (saveBtn sys configDir vmName fullAlloc config st).trace
        = [Event.showError SaveError.emptyName]
    ∧ (saveBtn sys configDir vmName fullAlloc config st).aborted = true
    ∧ ∀ ev ∈ (saveBtn sys configDir vmName fullAlloc config st).trace, ev.mutates = false := by
  simp [saveBtn, h, Event.mutates]

/-- Witness of C4: saving an editor with an empty name and one missing disk
over a directory with one descriptor. -/
theorem saveBtn_empty_name_witness :
    (saveBtn (simpleSys (fun _ => true)) "cfg".toList "a".toList true
        { Name := [], Disk := "QCOW2:/d/a.qcow2:10".toList }
        [("cfg/a.conf".toList, "name=a\n".toList)]).state
      = [("cfg/a.conf".toList, "name=a\n".toList)] :=
  (saveBtn_empty_name (simpleSys (fun _ => true)) "cfg".toList "a".toList true
    { Name := [], Disk := "QCOW2:/d/a.qcow2:10".toList }
    [("cfg/a.conf".toList, "name=a\n".toList)] rfl).1

/-- C5: when the editor was opened for a name that differs from the new
non-empty Name and the rename of the descriptor file fails, the save step shows
the error and returns: the trace has no tool invocation and no descriptor write,
and the final state is the one the failed rename left; when the original name is
empty or equal to the new Name, no rename is attempted. -/
theorem saveBtn_rename {σ : Type} (sys : Sys σ) (configDir vmName : Str)
    (fullAlloc : Bool) (config : VMConfig) (st : σ) :
    (config.Name ≠ [] → vmName ≠ [] → vmName ≠ config.Name →
      (sys.rename (sys.join configDir (vmName ++ ".conf".toList))
        (sys.join configDir (config.Name ++ ".conf".toList)) st).1 = false →
      (saveBtn sys configDir vmName fullAlloc config st).state
          = (sys.rename (sys.join configDir (vmName ++ ".conf".toList))
              (sys.join configDir (config.Name ++ ".conf".toList)) st).2
      ∧ (saveBtn sys configDir vmName fullAlloc config st).trace
          = [Event.rename (sys.join configDir (vmName ++ ".conf".toList))
               (sys.join configDir (config.Name ++ ".conf".toList)) false,
             Event.showError SaveError.renameConflict]
      ∧ (saveBtn sys configDir vmName fullAlloc config st).aborted = true
      ∧ ∀ ev ∈ (saveBtn sys configDir vmName fullAlloc config st).trace,
          ev.isRun = false ∧ ev.isWrite = false)
    ∧ (vmName = [] ∨ vmName = config.Name →
      ∀ ev ∈ (saveBtn sys configDir vmName fullAlloc config st).trace, ev.isRename = false) := by
  constructor
  · intro hn hv hne hr
    have hcond : vmName ≠ [] ∧ vmName ≠ config.Name := ⟨hv, hne⟩
    simp only [saveBtn, if_neg hn, if_pos hcond, hr, Bool.false_eq_true, if_false]
    simp [Event.isRun, Event.isWrite]
  · intro hv
    by_cases hn : config.Name = []
    · simp [saveBtn, hn, Event.isRename]
    · have hc : ¬ (vmName ≠ [] ∧ vmName ≠ config.Name) := by
        rcases hv with h | h
        · exact fun c => c.1 h
        · exact fun c => c.2 h
      simp only [saveBtn, hn, hc, if_false]
      exact saveContent_trace_no_rename sys configDir fullAlloc config st

/-- Witness of C5: renaming `old` to `new` while `new.conf` exists fails, and
the old descriptor file keeps its content. -/
theorem saveBtn_rename_witness :
    Files.read
      (saveBtn (simpleSys (fun _ => true)) "cfg".toList "old".toList true
        { Name := "new".toList, Disk := "QCOW2:/d/a.qcow2:10".toList }
        [("cfg/old.conf".toList, "name=old\n".toList),
         ("cfg/new.conf".toList, "name=new\n".toList)]).state
      "cfg/old.conf".toList = some "name=old\n".toList
    ∧ (saveBtn (simpleSys (fun _ => true)) "cfg".toList "old".toList true
        { Name := "new".toList, Disk := "QCOW2:/d/a.qcow2:10".toList }
        [("cfg/old.conf".toList, "name=old\n".toList),
         ("cfg/new.conf".toList, "name=new\n".toList)]).trace
      = [Event.rename "cfg/old.conf".toList "cfg/new.conf".toList false,
         Event.showError SaveError.renameConflict] :=
  have h := (saveBtn_rename (simpleSys (fun _ => true)) "cfg".toList "old".toList true
    { Name := "new".toList, Disk := "QCOW2:/d/a.qcow2:10".toList }
    [("cfg/old.conf".toList, "name=old\n".toList),
     ("cfg/new.conf".toList, "name=new\n".toList)]).1
    (by decide) (by decide) (by decide) (by decide)
  ⟨by rw [h.1]; decide, h.2.1⟩

theorem diskLoop_append {σ : Type} (sys : Sys σ) (fullAlloc : Bool) (pre post : List Str)
    (st : σ) :
    diskLoop sys fullAlloc (pre ++ post) st
      = if (diskLoop sys fullAlloc pre st).aborted then diskLoop sys fullAlloc pre st
        else (diskLoop sys fullAlloc post (diskLoop sys fullAlloc pre st).state).after
          (diskLoop sys fullAlloc pre st).trace := by
  induction pre generalizing st with
  | nil => simp [diskLoop, Run.after]
  | cons diskInfo rest ih =>
    rcases hp : parseDiskInfo diskInfo with ⟨dType, dPath, dCap⟩
    simp only [List.cons_append, diskLoop, hp, List.append_eq]
    split
    · exact ih st
    · split
      · split
        · rw [ih]
          split <;> simp_all [Run.after]
        · split
          · rw [ih]
            split <;> simp_all [Run.after]
          · simp
      · rw [ih]
        split <;> simp_all [Run.after]

theorem diskLoop_missing {σ : Type} (sys : Sys σ) (fullAlloc : Bool) (diskInfo : Str)
    (rest : List Str) (st : σ) (dType dPath dCap : Str)
    (hp : parseDiskInfo diskInfo = (dType, dPath, dCap)) (hpath : dPath ≠ [])
    (hmiss : sys.notExist dPath st = true) :
    diskLoop sys fullAlloc (diskInfo :: rest) st =
      if (sys.run (cmdArgs fullAlloc dType dPath dCap) st).1 then
        (diskLoop sys fullAlloc rest (sys.run (cmdArgs fullAlloc dType dPath dCap) st).2).after
          [Event.stat dPath true, Event.run (cmdArgs fullAlloc dType dPath dCap) true]
      else if (sys.run (fallbackArgs dType dPath dCap)
          (sys.run (cmdArgs fullAlloc dType dPath dCap) st).2).1 then
        (diskLoop sys fullAlloc rest (sys.run (fallbackArgs dType dPath dCap)
          (sys.run (cmdArgs fullAlloc dType dPath dCap) st).2).2).after
          [Event.stat dPath true, Event.run (cmdArgs fullAlloc dType dPath dCap) false,
           Event.run (fallbackArgs dType dPath dCap) true,
           Event.showInformation SaveInfo.createDegraded]
      else
        ⟨(sys.run (fallbackArgs dType dPath dCap)
            (sys.run (cmdArgs fullAlloc dType dPath dCap) st).2).2,
         [Event.stat dPath true, Event.run (cmdArgs fullAlloc dType dPath dCap) false,
          Event.run (fallbackArgs dType dPath dCap) false,
          Event.showError SaveError.createFailed], true⟩ := by
  simp only [diskLoop, hp, if_neg hpath, hmiss, if_true]

/-- C6: for a missing disk entry whose first creation attempt carries the
preallocation option (the box is checked and the format is `qcow2`), the retry
uses the same arguments without the option; when the first attempt fails and
the retry succeeds the save step shows the CreateDegraded warning, no error,
and goes on with the remaining entries; when the retry fails too it shows
CreateFailed and returns, and the save step ends there, in the state the retry
left, with no write of the descriptor; when the first attempt succeeds it shows
neither.  When the disk loop did not return early, as after a successful retry
with no failing later entry, the save step calls `ioutil.WriteFile` once, on the
descriptor path with the descriptor text in the state the disk loop left: the
final state is the one that call returns and the dialog that follows is the one
for its result.  A save without rename is this step from its first state, and
the entry may stand at any place of the disk list: the loop reaches it in the
state that the entries before it left. -/
theorem create_with_fallback {σ : Type} (sys : Sys σ) (diskInfo : Str) (rest : List Str)
    (st : σ) (dType dPath dCap : Str)
    (hp : parseDiskInfo diskInfo = (dType, dPath, dCap)) (hpath : dPath ≠ [])
    (hmiss : sys.notExist dPath st = true) (hfmt : formatOf dType = "qcow2".toList) :
    cmdArgs true dType dPath dCap
      = fallbackArgs dType dPath dCap ++ ["-o".toList, "preallocation=full".toList]
    ∧ ((sys.run (cmdArgs true dType dPath dCap) st).1 = false →
        (sys.run (fallbackArgs dType dPath dCap)
          (sys.run (cmdArgs true dType dPath dCap) st).2).1 = true →
        diskLoop sys true (diskInfo :: rest) st
          = (diskLoop sys true rest (sys.run (fallbackArgs dType dPath dCap)
              (sys.run (cmdArgs true dType dPath dCap) st).2).2).after
            [Event.stat dPath true, Event.run (cmdArgs true dType dPath dCap) false,
             Event.run (fallbackArgs dType dPath dCap) true,
             Event.showInformation SaveInfo.createDegraded])
    ∧ ((sys.run (cmdArgs true dType dPath dCap) st).1 = false →
        (sys.run (fallbackArgs dType dPath dCap)
          (sys.run (cmdArgs true dType dPath dCap) st).2).1 = false →
        diskLoop sys true (diskInfo :: rest) st
          = ⟨(sys.run (fallbackArgs dType dPath dCap)
              (sys.run (cmdArgs true dType dPath dCap) st).2).2,
             [Event.stat dPath true, Event.run (cmdArgs true dType dPath dCap) false,
              Event.run (fallbackArgs dType dPath dCap) false,
              Event.showError SaveError.createFailed], true⟩)
    ∧ ((sys.run (cmdArgs true dType dPath dCap) st).1 = true →
        diskLoop sys true (diskInfo :: rest) st
          = (diskLoop sys true rest (sys.run (cmdArgs true dType dPath dCap) st).2).after
            [Event.stat dPath true, Event.run (cmdArgs true dType dPath dCap) true])
    ∧ (∀ (configDir : Str) (config : VMConfig) (st0 : σ),
        (diskLoop sys true (splitChar ';' config.Disk) st0).aborted = true →
        saveContent sys configDir true config st0
            = diskLoop sys true (splitChar ';' config.Disk) st0
        ∧ ∀ ev ∈ (saveContent sys configDir true config st0).trace, ev.isWrite = false)
    ∧ (∀ (configDir : Str) (config : VMConfig) (st0 : σ),
        (diskLoop sys true (splitChar ';' config.Disk) st0).aborted = false →
        (saveContent sys configDir true config st0).state
          = (sys.writeFile (sys.join configDir (config.Name ++ ".conf".toList))
              (configContent config)
              (diskLoop sys true (splitChar ';' config.Disk) st0).state).2
        ∧ (saveContent sys configDir true config st0).trace
          = (diskLoop sys true (splitChar ';' config.Disk) st0).trace
            ++ Event.writeFile (sys.join configDir (config.Name ++ ".conf".toList))
                 (configContent config)
                 (sys.writeFile (sys.join configDir (config.Name ++ ".conf".toList))
                   (configContent config)
                   (diskLoop sys true (splitChar ';' config.Disk) st0).state).1
              :: (if (sys.writeFile (sys.join configDir (config.Name ++ ".conf".toList))
                    (configContent config)
                    (diskLoop sys true (splitChar ';' config.Disk) st0).state).1
                  then [Event.showInformation SaveInfo.saved, Event.closeWindow, Event.onSave]
                  else [Event.showError SaveError.writeFailed])
        ∧ (saveContent sys configDir true config st0).aborted = false)
    ∧ (∀ (configDir : Str) (config : VMConfig),
        splitChar ';' config.Disk = diskInfo :: rest →
        (sys.run (cmdArgs true dType dPath dCap) st).1 = false →
        (sys.run (fallbackArgs dType dPath dCap)
          (sys.run (cmdArgs true dType dPath dCap) st).2).1 = true →
        (diskLoop sys true rest (sys.run (fallbackArgs dType dPath dCap)
          (sys.run (cmdArgs true dType dPath dCap) st).2).2).aborted = false →
        (saveContent sys configDir true config st).state
          = (sys.writeFile (sys.join configDir (config.Name ++ ".conf".toList))
              (configContent config)
              (diskLoop sys true rest (sys.run (fallbackArgs dType dPath dCap)
                (sys.run (cmdArgs true dType dPath dCap) st).2).2).state).2
        ∧ (saveContent sys configDir true config st).trace
          = [Event.stat dPath true, Event.run (cmdArgs true dType dPath dCap) false,
             Event.run (fallbackArgs dType dPath dCap) true,
             Event.showInformation SaveInfo.createDegraded]
            ++ (diskLoop sys true rest (sys.run (fallbackArgs dType dPath dCap)
                  (sys.run (cmdArgs true dType dPath dCap) st).2).2).trace
            ++ Event.writeFile (sys.join configDir (config.Name ++ ".conf".toList))
                 (configContent config)
                 (sys.writeFile (sys.join configDir (config.Name ++ ".conf".toList))
                   (configContent config)
                   (diskLoop sys true rest (sys.run (fallbackArgs dType dPath dCap)
                     (sys.run (cmdArgs true dType dPath dCap) st).2).2).state).1
              :: (if (sys.writeFile (sys.join configDir (config.Name ++ ".conf".toList))
                    (configContent config)
                    (diskLoop sys true rest (sys.run (fallbackArgs dType dPath dCap)
                      (sys.run (cmdArgs true dType dPath dCap) st).2).2).state).1
                  then [Event.showInformation SaveInfo.saved, Event.closeWindow, Event.onSave]
                  else [Event.showError SaveError.writeFailed])
        ∧ (saveContent sys configDir true config st).aborted = false)
    ∧ (∀ (configDir : Str) (config : VMConfig),
        splitChar ';' config.Disk = diskInfo :: rest →
        (sys.run (cmdArgs true dType dPath dCap) st).1 = false →
        (sys.run (fallbackArgs dType dPath dCap)
          (sys.run (cmdArgs true dType dPath dCap) st).2).1 = false →
        saveContent sys configDir true config st
          = ⟨(sys.run (fallbackArgs dType dPath dCap)
              (sys.run (cmdArgs true dType dPath dCap) st).2).2,
             [Event.stat dPath true, Event.run (cmdArgs true dType dPath dCap) false,
              Event.run (fallbackArgs dType dPath dCap) false,
              Event.showError SaveError.createFailed], true⟩)
    ∧ (∀ (configDir : Str) (config : VMConfig) (st0 : σ), config.Name ≠ [] →
        saveBtn sys configDir [] true config st0 = saveContent sys configDir true config st0
        ∧ saveBtn sys configDir config.Name true config st0
            = saveContent sys configDir true config st0)
    ∧ (∀ (pre : List Str) (st0 : σ), (diskLoop sys true pre st0).aborted = false →
        (diskLoop sys true pre st0).state = st →
        diskLoop sys true (pre ++ diskInfo :: rest) st0
          = (diskLoop sys true (diskInfo :: rest) st).after
              (diskLoop sys true pre st0).trace) := by
  have hloop := diskLoop_missing sys true diskInfo rest st dType dPath dCap hp hpath hmiss
  have hwrite : ∀ (configDir : Str) (config : VMConfig) (st0 : σ),
      (diskLoop sys true (splitChar ';' config.Disk) st0).aborted = false →
      (saveContent sys configDir true config st0).state
        = (sys.writeFile (sys.join configDir (config.Name ++ ".conf".toList))
            (configContent config)
            (diskLoop sys true (splitChar ';' config.Disk) st0).state).2
      ∧ (saveContent sys configDir true config st0).trace
        = (diskLoop sys true (splitChar ';' config.Disk) st0).trace
          ++ Event.writeFile (sys.join configDir (config.Name ++ ".conf".toList))
               (configContent config)
               (sys.writeFile (sys.join configDir (config.Name ++ ".conf".toList))
                 (configContent config)
                 (diskLoop sys true (splitChar ';' config.Disk) st0).state).1
            :: (if (sys.writeFile (sys.join configDir (config.Name ++ ".conf".toList))
                  (configContent config)
                  (diskLoop sys true (splitChar ';' config.Disk) st0).state).1
                then [Event.showInformation SaveInfo.saved, Event.closeWindow, Event.onSave]
                else [Event.showError SaveError.writeFailed])
      ∧ (saveContent sys configDir true config st0).aborted = false := by
    intro configDir config st0 hab
    simp only [saveContent, hab, Bool.false_eq_true, if_false]
    by_cases hw : (sys.writeFile (sys.join configDir (config.Name ++ ".conf".toList))
        (configContent config)
        (diskLoop sys true (splitChar ';' config.Disk) st0).state).1 = true
    · simp only [hw, if_true, and_self]
    · have hw2 : (sys.writeFile (sys.join configDir (config.Name ++ ".conf".toList))
          (configContent config)
          (diskLoop sys true (splitChar ';' config.Disk) st0).state).1 = false := by
        simpa using hw
      simp only [hw2, Bool.false_eq_true, if_false, and_self]
  refine ⟨?_, ?_, ?_, ?_, ?_, hwrite, ?_, ?_, ?_, ?_⟩
  · simp [cmdArgs, fallbackArgs, hfmt]
  · intro h1 h2
    rw [hloop, h1, h2]
    simp
  · intro h1 h2
    rw [hloop, h1, h2]
    simp
  · intro h1
    rw [hloop, h1]
    simp
  · intro configDir config st0 hab
    have e : saveContent sys configDir true config st0
        = diskLoop sys true (splitChar ';' config.Disk) st0 := by
      simp only [saveContent, hab, if_true]
    refine ⟨e, ?_⟩
    rw [e]
    exact fun ev hev => (diskLoop_trace sys true _ st0 ev hev).2
  · intro configDir config hd h1 h2 hab
    have hl : diskLoop sys true (splitChar ';' config.Disk) st
        = (diskLoop sys true rest (sys.run (fallbackArgs dType dPath dCap)
            (sys.run (cmdArgs true dType dPath dCap) st).2).2).after
          [Event.stat dPath true, Event.run (cmdArgs true dType dPath dCap) false,
           Event.run (fallbackArgs dType dPath dCap) true,
           Event.showInformation SaveInfo.createDegraded] := by
      rw [hd, hloop, h1, h2]
      simp
    have hab2 : (diskLoop sys true (splitChar ';' config.Disk) st).aborted = false := by
      rw [hl]
      exact hab
    obtain ⟨e1, e2, e3⟩ := hwrite configDir config st hab2
    rw [hl] at e1 e2
    refine ⟨e1, ?_, e3⟩
    rw [e2]
    simp [Run.after]
  · intro configDir config hd h1 h2
    have hl : diskLoop sys true (splitChar ';' config.Disk) st
        = ⟨(sys.run (fallbackArgs dType dPath dCap)
              (sys.run (cmdArgs true dType dPath dCap) st).2).2,
             [Event.stat dPath true, Event.run (cmdArgs true dType dPath dCap) false,
              Event.run (fallbackArgs dType dPath dCap) false,
              Event.showError SaveError.createFailed], true⟩ := by
      rw [hd, hloop, h1, h2]
      simp
    simp only [saveContent, hl, if_true]
  · intro configDir config st0 hn
    constructor
    · simp [saveBtn, hn]
    · simp [saveBtn, hn]
  · intro pre st0 hab hst
    rw [diskLoop_append, hab, hst]
    simp

/-- Witness of C6: a tool that rejects the preallocation option and accepts
the plain command; the warning is shown, the image exists afterwards and the
descriptor is written. -/
theorem create_with_fallback_witness :
    (saveBtn (simpleSys (fun args => decide ("-o".toList ∉ args))) "cfg".toList [] true
        { Name := "vm".toList, Disk := "QCOW2:/d/a.qcow2:100".toList } []).trace
      = [Event.stat "/d/a.qcow2".toList true,
         Event.run ["create".toList, "-f".toList, "qcow2".toList, "/d/a.qcow2".toList,
           "100M".toList, "-o".toList, "preallocation=full".toList] false,
         Event.run ["create".toList, "-f".toList, "qcow2".toList, "/d/a.qcow2".toList,
           "100M".toList] true,
         Event.showInformation SaveInfo.createDegraded,
         Event.writeFile "cfg/vm.conf".toList
           (configContent { Name := "vm".toList, Disk := "QCOW2:/d/a.qcow2:100".toList }) true,
         Event.showInformation SaveInfo.saved, Event.closeWindow, Event.onSave]
    ∧ (saveBtn (simpleSys (fun args => decide ("-o".toList ∉ args))) "cfg".toList [] true
        { Name := "vm".toList, Disk := "QCOW2:/d/a.qcow2:100".toList } []).state
      = [("cfg/vm.conf".toList,
          configContent { Name := "vm".toList, Disk := "QCOW2:/d/a.qcow2:100".toList }),
         ("/d/a.qcow2".toList, [])]
    ∧ diskLoop (simpleSys (fun args => decide ("-o".toList ∉ args))) true
        ["QCOW2:/d/a.qcow2:100".toList] []
      = (diskLoop (simpleSys (fun args => decide ("-o".toList ∉ args))) true []
          [("/d/a.qcow2".toList, [])]).after
        [Event.stat "/d/a.qcow2".toList true,
         Event.run ["create".toList, "-f".toList, "qcow2".toList, "/d/a.qcow2".toList,
           "100M".toList, "-o".toList, "preallocation=full".toList] false,
         Event.run ["create".toList, "-f".toList, "qcow2".toList, "/d/a.qcow2".toList,
           "100M".toList] true,
         Event.showInformation SaveInfo.createDegraded] :=
  ⟨by decide, by decide,
   (create_with_fallback (simpleSys (fun args => decide ("-o".toList ∉ args)))
      "QCOW2:/d/a.qcow2:100".toList [] [] "QCOW2".toList "/d/a.qcow2".toList "100".toList
      (by decide) (by decide) (by decide) (by decide)).2.1 (by decide) (by decide)⟩

/-! ## Decimal integers -/

theorem digitVal_digitChar (k : Nat) (h : k < 10) : digitVal (Nat.digitChar k) = some k := by
  interval_cases k <;> decide


theorem toDigitsCore_spec (fuel n : Nat) (ds : Str) (h : n < fuel) :
    ∃ pre : Str, Nat.toDigitsCore 10 fuel n ds = pre ++ ds ∧ pre ≠ []
      ∧ (∀ c ∈ pre, digitVal c ≠ none)
      ∧ ∀ (acc : Nat) (rest : Str),
          parseDigitsFrom acc (pre ++ rest) = parseDigitsFrom (acc * 10 ^ pre.length + n) rest := by
  induction fuel generalizing n ds with
  | zero => omega
  | succ fuel ih =>
    have hd := digitVal_digitChar (n % 10) (Nat.mod_lt _ (by norm_num))
    by_cases h0 : n / 10 = 0
    · refine ⟨[Nat.digitChar (n % 10)], ?_, by simp, ?_, ?_⟩
      · simp [Nat.toDigitsCore, h0]
      · intro c hc
        simp only [List.mem_singleton] at hc
        subst hc
        simp [hd]
      · intro acc rest
        have hn : n % 10 = n := Nat.mod_eq_of_lt (by omega)
        rw [hn] at hd
        simp [parseDigitsFrom, hd, hn]
    · have hlt : n / 10 < fuel := by omega
      obtain ⟨pre, h1, h2, h3, h4⟩ := ih (n / 10) (Nat.digitChar (n % 10) :: ds) hlt
      refine ⟨pre ++ [Nat.digitChar (n % 10)], ?_, by simp, ?_, ?_⟩
      · simp [Nat.toDigitsCore, h0, h1]
      · intro c hc
        simp only [List.mem_append, List.mem_singleton] at hc
        rcases hc with hc | hc
        · exact h3 c hc
        · subst hc; simp [hd]
      · intro acc rest
        have e := h4 acc (Nat.digitChar (n % 10) :: rest)
        simp only [List.append_assoc, List.singleton_append]
        rw [e]
        simp only [parseDigitsFrom, hd, List.length_append, List.length_singleton]
        congr 1
        have := Nat.div_add_mod n 10
        rw [pow_succ]
        nlinarith [this]

theorem parseDigits_toDigits (n : Nat) : parseDigits (Nat.toDigits 10 n) = some n := by
  obtain ⟨pre, h1, h2, _, h4⟩ := toDigitsCore_spec (n + 1) n [] (Nat.lt_succ_self n)
  have e : Nat.toDigits 10 n = pre := by simpa [Nat.toDigits] using h1
  have := h4 0 []
  simp only [List.append_nil, Nat.zero_mul, Nat.zero_add, parseDigitsFrom] at this
  rw [e, parseDigits, if_neg h2, this]

theorem toDigits_head (n : Nat) :
    ∃ c cs, Nat.toDigits 10 n = c :: cs ∧ c ≠ '+' ∧ c ≠ '-' := by
  obtain ⟨pre, h1, h2, h3, _⟩ := toDigitsCore_spec (n + 1) n [] (Nat.lt_succ_self n)
  have e : Nat.toDigits 10 n = pre := by simpa [Nat.toDigits] using h1
  cases pre with
  | nil => exact absurd rfl h2
  | cons c cs =>
    refine ⟨c, cs, e, ?_, ?_⟩
    · intro hc; exact h3 c (by simp) (by rw [hc]; decide)
    · intro hc; exact h3 c (by simp) (by rw [hc]; decide)

theorem parseInt_toDigits (n : Nat) :
    parseInt (Nat.toDigits 10 n) = if 2 ^ 63 ≤ n then none else some (n : Int) := by
  obtain ⟨c, cs, e, hp, hm⟩ := toDigits_head n
  have hd := parseDigits_toDigits n
  rw [e] at hd
  rw [e]
  simp only [parseInt, hp, hm, or_self, if_false, hd, decide_False, Bool.not_false,
    Bool.true_and, Bool.false_and, Bool.false_eq_true, decide_eq_true_eq]

theorem parseInt_neg_toDigits (n : Nat) :
    parseInt ('-' :: Nat.toDigits 10 n) = if 2 ^ 63 < n then none else some (-(n : Int)) := by
  have hd := parseDigits_toDigits n
  simp only [parseInt, or_true, if_true, hd, decide_True, Bool.not_true, Bool.false_and,
    Bool.true_and, Bool.false_eq_true, if_false, decide_eq_true_eq]

theorem parseInt_formatInt (v : Int) (h1 : -2 ^ 63 ≤ v) (h2 : v < 2 ^ 63) :
    parseInt (formatInt v) = some v := by
  unfold formatInt
  split
  · rename_i hneg
    rw [parseInt_neg_toDigits, if_neg (by omega)]
    congr 1
    omega
  · rename_i hpos
    rw [parseInt_toDigits, if_neg (by omega)]
    congr 1
    omega

theorem parseInt_formatInt_out_of_range (v : Int) (h : v < -2 ^ 63 ∨ 2 ^ 63 ≤ v) :
    parseInt (formatInt v) = none := by
  unfold formatInt
  split
  · rename_i hneg
    rw [parseInt_neg_toDigits, if_pos (by omega)]
  · rename_i hpos
    rw [parseInt_toDigits, if_pos (by omega)]

theorem parseDigitsFrom_nondigit (a b : Str) (c : Char) (hc : digitVal c = none) (acc : Nat) :
    parseDigitsFrom acc (a ++ c :: b) = none := by
  induction a generalizing acc with
  | nil => simp [parseDigitsFrom, hc]
  | cons x xs ih =>
    simp only [List.cons_append, parseDigitsFrom]
    cases digitVal x with
    | none => rfl
    | some d => exact ih _

theorem parseDigits_nondigit (a b : Str) (c : Char) (hc : digitVal c = none) :
    parseDigits (a ++ c :: b) = none := by
  simp [parseDigits, parseDigitsFrom_nondigit a b c hc]

theorem parseInt_nondigit (a b : Str) (c : Char) (hc : digitVal c = none)
    (hsign : a = [] → c ≠ '+' ∧ c ≠ '-') : parseInt (a ++ c :: b) = none := by
  cases a with
  | nil =>
    obtain ⟨hp, hm⟩ := hsign rfl
    have := parseDigits_nondigit [] b c hc
    simp only [List.nil_append] at this
    simp [parseInt, hp, hm, this]
  | cons x xs =>
    have h1 := parseDigits_nondigit xs b c hc
    have h2 := parseDigits_nondigit (x :: xs) b c hc
    simp only [List.cons_append] at h2
    simp only [List.cons_append, parseInt]
    split_ifs <;> simp [h1, h2]

/-! ## Capacity of a disk to create -/

theorem capacityVal_pos (dCap : Str) : 1 ≤ capacityVal dCap := by
  unfold capacityVal
  split
  · split <;> omega
  · omega

/-- C7: the size argument of the create command is the decimal of `n` followed
by `M`, with `n ≥ 1`: `n` is the value of the capacity string when it parses
(`strconv.ParseInt`, base 10, 64 bits) to an integer that is at least 1, and
10240 in every other case: the empty string, a string with a character that is
not a digit (a leading sign apart), the decimal of a value outside the signed
64-bit range, and the decimal of zero or of a negative value. -/
theorem sizeArg_capacity (dCap : Str) :
    sizeArg dCap = Nat.toDigits 10 (capacityVal dCap).toNat ++ "M".toList
    ∧ 1 ≤ capacityVal dCap
    ∧ (∀ (fullAlloc : Bool) (dType dPath : Str),
        (cmdArgs fullAlloc dType dPath dCap).get? 4 = some (sizeArg dCap)
        ∧ (fallbackArgs dType dPath dCap).get? 4 = some (sizeArg dCap))
    ∧ (∀ v : Int, parseInt dCap = some v → 1 ≤ v → capacityVal dCap = v)
    ∧ (∀ v : Int, parseInt dCap = some v → v < 1 → capacityVal dCap = 10240)
    ∧ (parseInt dCap = none → capacityVal dCap = 10240)
    ∧ capacityVal [] = 10240
    ∧ (∀ v : Int, 1 ≤ v → v < 2 ^ 63 → capacityVal (formatInt v) = v)
    ∧ (∀ v : Int, v < 1 ∨ 2 ^ 63 ≤ v → capacityVal (formatInt v) = 10240)
    ∧ (∀ (a b : Str) (c : Char), digitVal c = none → (a = [] → c ≠ '+' ∧ c ≠ '-') →
        capacityVal (a ++ c :: b) = 10240) := by
  have hpos := capacityVal_pos dCap
  refine ⟨?_, hpos, ?_, ?_, ?_, ?_, by decide, ?_, ?_, ?_⟩
  · have hn : ¬ capacityVal dCap < 0 := by omega
    have e : (capacityVal dCap).natAbs = (capacityVal dCap).toNat := by omega
    simp [sizeArg, formatInt, hn, e]
  · intro fullAlloc dType dPath
    constructor
    · simp only [cmdArgs]
      split <;> rfl
    · rfl
  · intro v hv h1
    have : ¬ v < 1 := by omega
    simp [capacityVal, hv, this]
  · intro v hv h1
    simp [capacityVal, hv, h1]
  · intro hv
    simp [capacityVal, hv]
  · intro v h1 h2
    have : ¬ v < 1 := by omega
    simp [capacityVal, parseInt_formatInt v (by omega) h2, this]
  · intro v h
    by_cases hr : v < -2 ^ 63 ∨ 2 ^ 63 ≤ v
    · simp [capacityVal, parseInt_formatInt_out_of_range v hr]
    · have h1 : v < 1 := by omega
      simp [capacityVal, parseInt_formatInt v (by omega) (by omega), h1]
  · intro a b c hc hs
    simp [capacityVal, parseInt_nondigit a b c hc hs]

/-- Witness of C7 at the capacity strings `100`, `0`, `-5` and `12x`. -/
theorem sizeArg_capacity_witness :
    capacityVal "100".toList = 100 ∧ sizeArg "100".toList = "100M".toList
    ∧ capacityVal "0".toList = 10240 ∧ capacityVal "-5".toList = 10240
    ∧ capacityVal "12x".toList = 10240 :=
  ⟨(sizeArg_capacity "100".toList).2.2.2.1 100 (by decide) (by decide),
   (sizeArg_capacity "100".toList).1.trans (by decide),
   (sizeArg_capacity "0".toList).2.2.2.2.1 0 (by decide) (by decide),
   (sizeArg_capacity "-5".toList).2.2.2.2.1 (-5) (by decide) (by decide),
   (sizeArg_capacity "12x".toList).2.2.2.2.2.1 (by decide)⟩

/-! ## Capacity floor of an existing disk -/

/-- C8: for an existing disk with probed size `base > 0` (a signed 64-bit
value) the capacity field after the change handler is never below `base`: a
text that parses to `val < base` is replaced by the decimal of `base`, a text
that parses to `val ≥ base` is left unchanged, a text that does not parse is
left unchanged and has no value; whenever the resulting text has a value, that
value is at least `base`; running the handler again on its result changes
nothing; base 20480 and text `5000` give `20480`. -/
theorem capacityOnChanged_floor (base : Int) (text : Str) (hb : 0 < base) (hr : base < 2 ^ 63) :
    (∀ val : Int, parseInt text = some val → val < base →
        capacityOnChanged base text = formatInt base)
    ∧ (∀ val : Int, parseInt text = some val → base ≤ val →
        capacityOnChanged base text = text)
    ∧ (parseInt text = none → capacityOnChanged base text = text)
    ∧ (∀ v : Int, parseInt (capacityOnChanged base text) = some v → base ≤ v)
    ∧ capacityOnChanged base (capacityOnChanged base text) = capacityOnChanged base text
    ∧ capacityOnChanged 20480 "5000".toList = "20480".toList := by
  have hfmt : parseInt (formatInt base) = some base := parseInt_formatInt base (by omega) hr
  have hgt : base > 0 := hb
  have key : ∀ t : Str, ∀ v : Int, parseInt (capacityOnChanged base t) = some v → base ≤ v := by
    intro t v hv
    simp only [capacityOnChanged, if_pos hgt] at hv
    cases hp : parseInt t with
    | none =>
      rw [hp] at hv
      simp only [hp] at hv
      exact absurd hv (by simp)
    | some val =>
      rw [hp] at hv
      simp only at hv
      by_cases hlt : val < base
      · rw [if_pos hlt, hfmt] at hv
        have := Option.some.inj hv
        omega
      · rw [if_neg hlt, hp] at hv
        have := Option.some.inj hv
        omega
  refine ⟨?_, ?_, ?_, key text, ?_, by decide⟩
  · intro val hp hlt
    simp [capacityOnChanged, hgt, hp, hlt]
  · intro val hp hge
    have : ¬ val < base := by omega
    simp [capacityOnChanged, hgt, hp, this]
  · intro hp
    simp [capacityOnChanged, hgt, hp]
  · cases hp : parseInt (capacityOnChanged base text) with
    | none =>
      conv_lhs => rw [capacityOnChanged, if_pos hgt, hp]
    | some v =>
      have hge := key text v hp
      have : ¬ v < base := by omega
      conv_lhs => rw [capacityOnChanged, if_pos hgt, hp]
      simp [this]

/-- Witness of C8 at base 20480 and the texts `5000` and `30000`. -/
theorem capacityOnChanged_floor_witness :
    capacityOnChanged 20480 "5000".toList = formatInt 20480
    ∧ capacityOnChanged 20480 "30000".toList = "30000".toList :=
  ⟨(capacityOnChanged_floor 20480 "5000".toList (by decide) (by decide)).1 5000
      (by decide) (by decide),
   (capacityOnChanged_floor 20480 "30000".toList (by decide) (by decide)).2.1 30000
      (by decide) (by decide)⟩

/-! ## RAM warning -/

theorem excessBits_small (fuel m : Nat) (h : m < 2 ^ 53) : excessBits fuel m = 0 := by
  cases fuel with
  | zero => rfl
  | succ f => rw [excessBits, if_pos h]

theorem excessBits_spec (fuel m : Nat) (hf : m ≤ fuel) (hm : 2 ^ 53 ≤ m) :
    1 ≤ excessBits fuel m ∧ 2 ^ (52 + excessBits fuel m) ≤ m
      ∧ m < 2 ^ (53 + excessBits fuel m) := by
  induction fuel generalizing m with
  | zero =>
    have : 0 < 2 ^ 53 := by norm_num
    omega
  | succ fuel ih =>
    have hnot : ¬ m < 2 ^ 53 := by omega
    have e0 : excessBits (fuel + 1) m = excessBits fuel (m / 2) + 1 := by
      rw [excessBits, if_neg hnot]
    rw [e0]
    by_cases hs : m / 2 < 2 ^ 53
    · rw [excessBits_small fuel (m / 2) hs]
      refine ⟨by omega, ?_, ?_⟩
      · simpa using hm
      · have : (2:Nat) ^ (53 + (0 + 1)) = 2 * 2 ^ 53 := by norm_num
        omega
    · have hm2 : 2 ^ 53 ≤ m / 2 := by omega
      have hf2 : m / 2 ≤ fuel := by
        have : 0 < 2 ^ 53 := by norm_num
        omega
      obtain ⟨_, h2, h3⟩ := ih (m / 2) hf2 hm2
      refine ⟨by omega, ?_, ?_⟩
      · have : 2 ^ (52 + (excessBits fuel (m / 2) + 1)) = 2 * 2 ^ (52 + excessBits fuel (m / 2)) := by
          rw [← Nat.add_assoc, pow_succ]; ring
        omega
      · have : 2 ^ (53 + (excessBits fuel (m / 2) + 1)) = 2 * 2 ^ (53 + excessBits fuel (m / 2)) := by
          rw [← Nat.add_assoc, pow_succ]; ring
        omega

theorem roundSig53_small (m : Nat) (h : m < 2 ^ 53) : roundSig53 m = m := by
  rw [roundSig53, if_pos h]

theorem roundSig53_mul08_le_iff (max r : Nat) (hmax : max < 2 ^ 44) :
    roundSig53 (f64Const08 * max) ≤ r * 2 ^ 52 ↔ 4 * max ≤ 5 * r := by
  have hC : f64Const08 * max = 3602879701896397 * max := rfl
  have h52 : (2 : Nat) ^ 52 = 4503599627370496 := by norm_num
  have h53 : (2 : Nat) ^ 53 = 9007199254740992 := by norm_num
  have h44 : (2 : Nat) ^ 44 = 17592186044416 := by norm_num
  have h42 : (2 : Nat) ^ 42 = 4398046511104 := by norm_num
  by_cases hsmall : f64Const08 * max < 2 ^ 53
  · rw [roundSig53_small _ hsmall]
    omega
  · obtain ⟨he1, hlo, hhi⟩ := excessBits_spec (f64Const08 * max) (f64Const08 * max)
      (Nat.le_refl _) (by omega)
    rw [roundSig53, if_neg hsmall]
    simp only []
    generalize excessBits (f64Const08 * max) (f64Const08 * max) = e at he1 hlo hhi ⊢
    have he43 : e ≤ 43 := by
      by_contra hcon
      have h1 : (2 : Nat) ^ 96 ≤ 2 ^ (52 + e) := Nat.pow_le_pow_right (by norm_num) (by omega)
      have h96 : (2 : Nat) ^ 96 = 79228162514264337593543950336 := by norm_num
      omega
    have hE : (2 : Nat) ^ e = 2 * 2 ^ (e - 1) := by
      have : e = (e - 1) + 1 := by omega
      conv_lhs => rw [this, pow_succ]
      ring
    have hh1 : 1 ≤ 2 ^ (e - 1) := Nat.one_le_two_pow
    have hh42 : 2 ^ (e - 1) ≤ 2 ^ 42 := Nat.pow_le_pow_right (by norm_num) (by omega)
    have hK : 2 ^ (52 - e) * 2 ^ e = 2 ^ 52 := by
      rw [← pow_add]; congr 1; omega
    have hhi2 : (2 : Nat) ^ (53 + e) = 2 ^ 53 * 2 ^ e := pow_add 2 53 e
    have hdm := Nat.div_add_mod (f64Const08 * max) (2 ^ e)
    have hrm : f64Const08 * max % 2 ^ e < 2 ^ e := Nat.mod_lt _ (by positivity)
    have hN : r * 2 ^ 52 = (r * 2 ^ (52 - e)) * 2 ^ e := by rw [Nat.mul_assoc, hK]
    generalize hq : f64Const08 * max / 2 ^ e = q at hdm ⊢
    generalize hrmd : f64Const08 * max % 2 ^ e = rm at hdm hrm ⊢
    generalize hk : r * 2 ^ (52 - e) = k at hN
    generalize hhd : 2 ^ (e - 1) = h at hE hh1 hh42 ⊢
    generalize hEd : 2 ^ e = E at hE hhi2 hdm hrm hN ⊢
    have hm1 : k ≤ q → k * E ≤ q * E := fun hle => Nat.mul_le_mul_right E hle
    have hm2 : q ≤ k → q * E ≤ k * E := fun hle => Nat.mul_le_mul_right E hle
    have hm3 : q + 1 ≤ k → (q + 1) * E ≤ k * E := fun hle => Nat.mul_le_mul_right E hle
    have hm4 : k + 1 ≤ q → (k + 1) * E ≤ q * E := fun hle => Nat.mul_le_mul_right E hle
    have hs1 : (q + 1) * E = q * E + E := by ring
    have hs2 : (k + 1) * E = k * E + E := by ring
    have hc : E * q = q * E := Nat.mul_comm _ _
    rw [hs1]
    rw [hs1] at hm3
    rw [hs2] at hm4
    rw [hc] at hdm
    generalize q * E = qE at *
    generalize k * E = kE at *
    rw [hhi2] at hhi
    have hhi3 : 3602879701896397 * max < 9007199254740992 * E := by
      rw [← hC, ← h53]; exact hhi
    split_ifs with hcond
    · omega
    · omega

theorem clampRam_eq_min (requested total : Nat) :
    clampRam (requested : Int) (total : Int) = ((min requested total : Nat) : Int) := by
  unfold clampRam
  split <;> omega

/-- C9, as stated, fails: for total 8192 the truncated threshold is 6553 and
the request 6553 reaches it, yet `updateRamWarning` shows no warning, because
it compares with the exact product 6553.6. -/
theorem ramWarningShown_not_floor :
    4 * 8192 / 5 = 6553 ∧ 4 * 8192 / 5 ≤ min 6553 8192
    ∧ ramWarningShown 6553 8192 = false
    ∧ ¬ (ramWarningShown 6553 8192 = true ↔ 4 * 8192 / 5 ≤ min 6553 8192) := by
  decide

/-- C9, amended: for every requested value and every total below `2^44` (the
range of `getTotalMemoryMB`, a 64-bit byte count divided by `2^20`), with
`r = min requested total`, `updateRamWarning` shows the warning if and only if
`r ≥ 0.8 * total` exactly, that is `4 * total ≤ 5 * r`: the threshold is not
truncated; a text of the RAM field that parses to `requested` gives that
result.  For total 8192, requested 6600 gives a warning and 6000 gives none. -/
theorem ramWarningShown_iff (requested total : Nat) (ht : total < 2 ^ 44) :
    (ramWarningShown requested total = true ↔ 4 * total ≤ 5 * min requested total)
    ∧ (∀ text : Str, parseInt text = some (requested : Int) →
        (updateRamWarning text total).2 = ramWarningShown requested total)
    ∧ (∀ (unitMB : Bool) (totalPhys : Nat), ramMax unitMB totalPhys < 2 ^ 44)
    ∧ ramWarningShown 6600 8192 = true ∧ ramWarningShown 6000 8192 = false := by
  have hrange : ∀ (unitMB : Bool) (totalPhys : Nat), ramMax unitMB totalPhys < 2 ^ 44 := by
    intro unitMB totalPhys
    have hlt : totalPhys % 2 ^ 64 < 2 ^ 64 := Nat.mod_lt _ (by norm_num)
    unfold ramMax getTotalMemoryMB
    split <;> omega
  refine ⟨?_, fun text hp => by simp [updateRamWarning, hp], hrange, by decide, by decide⟩
  have h44 : (2 : Nat) ^ 44 = 17592186044416 := by norm_num
  have h53 : (2 : Nat) ^ 53 = 9007199254740992 := by norm_num
  have hr : min requested total < 2 ^ 53 := by omega
  have ht53 : total < 2 ^ 53 := by omega
  have hnn : ¬ (((min requested total : Nat) : Int) < 0) := by omega
  simp only [ramWarningShown, decide_eq_true_eq, f64Mul08, f64OfInt, clampRam_eq_min,
    if_neg hnn, Int.natAbs_ofNat, roundSig53_small _ hr, roundSig53_small _ ht53]
  rw [Int.ofNat_le]
  exact roundSig53_mul08_le_iff total (min requested total) ht

/-- Witness of C9 (amended) at total 8192 and the request 6554, the least one
that gives a warning. -/
theorem ramWarningShown_iff_witness :
    ramWarningShown 6554 8192 = true
    ∧ (updateRamWarning "6554".toList 8192).2 = ramWarningShown 6554 8192 :=
  ⟨(ramWarningShown_iff 6554 8192 (by decide)).1.2 (by decide),
   (ramWarningShown_iff 6554 8192 (by decide)).2.1 "6554".toList (by decide)⟩

/-! ## GPU option codec -/

theorem splitChar_no_sep (sep : Char) (a : Str) (h : sep ∉ a) : splitChar sep a = [a] := by
  induction a with
  | nil => rfl
  | cons c cs ih =>
    have hc : c ≠ sep := fun e => h (by simp [e])
    have hcs : sep ∉ cs := fun e => h (by simp [e])
    simp [splitChar, hc, ih hcs]

theorem splitChar_append_sep (sep : Char) (a r : Str) (h : sep ∉ a) :
    splitChar sep (a ++ sep :: r) = a :: splitChar sep r := by
  induction a with
  | nil => simp [splitChar]
  | cons c cs ih =>
    have hc : c ≠ sep := fun e => h (by simp [e])
    have hcs : sep ∉ cs := fun e => h (by simp [e])
    simp [splitChar, hc, ih hcs]

theorem splitChar_joinWith (sep : Char) (ls : List Str) (hne : ls ≠ [])
    (h : ∀ l ∈ ls, sep ∉ l) : splitChar sep (joinWith [sep] ls) = ls := by
  induction ls with
  | nil => exact absurd rfl hne
  | cons a rest ih =>
    cases rest with
    | nil => simpa [joinWith] using splitChar_no_sep sep a (h a (by simp))
    | cons b rest2 =>
      have ha := h a (by simp)
      have hrest : ∀ l ∈ b :: rest2, sep ∉ l := fun l hl => h l (by simp [hl])
      have := ih (by simp) hrest
      simp only [joinWith, List.append_assoc, List.singleton_append]
      rw [splitChar_append_sep sep a _ ha, this]

theorem joinWith_ne_nil (sep : Str) (a : Str) (rest : List Str) (ha : a ≠ []) :
    joinWith sep (a :: rest) ≠ [] := by
  cases rest with
  | nil => simpa [joinWith] using ha
  | cons b r => simp [joinWith, ha]

theorem foldl_gpu_pairs (kvs : List (Str × Str)) (hk : ∀ kv ∈ kvs, '=' ∉ kv.1) (acc : GoMap) :
    (kvs.map encodePair).foldl parseGPUStep acc = kvs.reverse ++ acc := by
  induction kvs generalizing acc with
  | nil => rfl
  | cons kv rest ih =>
    have h1 := hk kv (by simp)
    have hrest : ∀ x ∈ rest, '=' ∉ x.1 := fun x hx => hk x (by simp [hx])
    have hstep : parseGPUStep acc (encodePair kv) = kv :: acc := by
      simp [parseGPUStep, encodePair, splitN2, cutFirst_append_sep '=' kv.1 kv.2 h1, GoMap.set]
    rw [List.map_cons, List.foldl_cons, hstep, ih hrest]
    simp

theorem parseGPUString_pairs (kvs : List (Str × Str)) (hk : ∀ kv ∈ kvs, '=' ∉ kv.1)
    (hc : ∀ kv ∈ kvs, ',' ∉ encodePair kv) :
    parseGPUString (joinWith ",".toList (kvs.map encodePair)) = kvs.reverse := by
  cases kvs with
  | nil => rfl
  | cons kv rest =>
    have hne : joinWith ",".toList ((kv :: rest).map encodePair) ≠ [] := by
      simp only [List.map_cons]
      exact joinWith_ne_nil _ _ _ (by simp [encodePair])
    have hs : splitChar ',' (joinWith ",".toList ((kv :: rest).map encodePair))
        = (kv :: rest).map encodePair := by
      apply splitChar_joinWith ',' _ (by simp)
      intro l hl
      simp only [List.mem_map] at hl
      obtain ⟨x, hx, rfl⟩ := hl
      exact hc x hx
    rw [parseGPUString, if_neg hne, hs, foldl_gpu_pairs _ hk]
    simp

theorem GoMap_get_append (a b : GoMap) (k : Str) :
    GoMap.get (a ++ b) k = (GoMap.get a k).orElse (fun _ => GoMap.get b k) := by
  induction a with
  | nil => rfl
  | cons x xs ih =>
    obtain ⟨k1, v1⟩ := x
    simp only [List.cons_append, GoMap.get]
    split
    · rfl
    · exact ih

theorem gpuPairs_eq (g : GPUSel) : gpuPairs g = (gpuKV g).map encodePair := by
  simp only [gpuPairs, gpuKV, List.map_append]
  congr 1
  · congr 1
    · congr 1
      · congr 1
        · split <;> rfl
        · split <;> rfl
      · split <;> rfl
    · split <;> rfl
  · split <;> rfl

theorem gpuKV_mem (g : GPUSel) (kv : Str × Str) (h : kv ∈ gpuKV g) :
    kv = ("vga".toList, g.vga) ∨ kv = ("display".toList, g.display)
    ∨ kv = ("device".toList, g.device) ∨ kv = ("gl".toList, g.gl)
    ∨ kv = ("hostmem".toList, g.hostmem) := by
  simp only [gpuKV, List.mem_append] at h
  rcases h with (((h | h) | h) | h) | h <;> split at h <;>
    simp only [List.mem_singleton, List.not_mem_nil] at h <;> simp [h]

theorem GoMap_get_ite (c : Prop) [Decidable c] (k1 v k : Str) :
    GoMap.get (if c then [(k1, v)] else []) k = if c ∧ k1 = k then some v else none := by
  by_cases hc : c <;> by_cases hk : k1 = k <;> simp [GoMap.get, hc, hk]

/-- C10: for five GPU selections without a comma (each unset, that is empty,
or set), decoding the encoded string with `parseGPUString` gives the mapping
that has `vga`, `device` and `hostmem` exactly when they are set, `display`
exactly when it is set and not `none`, `gl` exactly when it is set and not
`off`, each with its selected value, and no other key. -/
theorem parseGPUString_encodeGPU (g : GPUSel) (h : g.noComma) (k : Str) :
    GoMap.get (parseGPUString (encodeGPU g)) k = gpuExpected g k := by
  obtain ⟨h1, h2, h3, h4, h5⟩ := h
  have hk : ∀ kv ∈ gpuKV g, '=' ∉ kv.1 := by
    intro kv hkv
    rcases gpuKV_mem g kv hkv with e | e | e | e | e <;> subst e <;> simp
  have hc : ∀ kv ∈ gpuKV g, ',' ∉ encodePair kv := by
    intro kv hkv
    rcases gpuKV_mem g kv hkv with e | e | e | e | e <;> subst e <;>
      simp [encodePair, h1, h2, h3, h4, h5]
  rw [encodeGPU, gpuPairs_eq, parseGPUString_pairs _ hk hc]
  simp only [gpuKV, List.reverse_append, GoMap_get_append]
  have hrev : ∀ (c : Prop) [Decidable c] (x : Str × Str),
      (if c then [x] else []).reverse = if c then [x] else [] := by
    intro c _ x; split <;> rfl
  simp only [hrev, GoMap_get_ite, gpuExpected]
  by_cases e1 : k = "vga".toList
  · subst e1; simp
  by_cases e2 : k = "display".toList
  · subst e2; simp
  by_cases e3 : k = "device".toList
  · subst e3; simp
  by_cases e4 : k = "gl".toList
  · subst e4; simp
  by_cases e5 : k = "hostmem".toList
  · subst e5; simp
  · have n1 : ¬ "vga".toList = k := fun e => e1 e.symm
    have n2 : ¬ "display".toList = k := fun e => e2 e.symm
    have n3 : ¬ "device".toList = k := fun e => e3 e.symm
    have n4 : ¬ "gl".toList = k := fun e => e4 e.symm
    have n5 : ¬ "hostmem".toList = k := fun e => e5 e.symm
    simp only [String.toList] at e1 e2 e3 e4 e5 n1 n2 n3 n4 n5
    simp [e1, e2, e3, e4, e5, n1, n2, n3, n4, n5]

/-- Witness of C10: `vga` and `hostmem` set, `display` set to `none`, `gl` set
to `off`, `device` unset; the decoded mapping has `vga` and not `display`. -/
theorem parseGPUString_encodeGPU_witness :
    GoMap.get (parseGPUString (encodeGPU
      { vga := "virtio".toList, display := "none".toList, device := [],
        gl := "off".toList, hostmem := "256M".toList })) "vga".toList = some "virtio".toList
    ∧ GoMap.get (parseGPUString (encodeGPU
      { vga := "virtio".toList, display := "none".toList, device := [],
        gl := "off".toList, hostmem := "256M".toList })) "display".toList = none :=
  ⟨(parseGPUString_encodeGPU _ (by decide) _).trans (by decide),
   (parseGPUString_encodeGPU _ (by decide) _).trans (by decide)⟩

/-! ## Line and key splitting -/

theorem splitKeyValueFrom_none (s : Str) (i : Nat) (rest : Str) (h : '=' ∉ rest) :
    splitKeyValueFrom s i rest = [] := by
  induction rest generalizing i with
  | nil => rfl
  | cons c cs ih =>
    have hc : c ≠ '=' := fun e => h (by simp [e])
    have hcs : '=' ∉ cs := fun e => h (by simp [e])
    simp [splitKeyValueFrom, hc, ih _ hcs]

/-- C11: for a key `k` without an equals sign and any value `v` (equals signs
allowed), `splitKeyValue` applied to `k=v` returns the two-element list `[k, v]`:
the line is split at its first equals sign only; for a string `s` without an
equals sign it returns the empty list. -/
theorem splitKeyValue_first_equals (k v s : Str) :
    ('=' ∉ k → splitKeyValue (k ++ "=".toList ++ v) = [k, v])
    ∧ ('=' ∉ s → splitKeyValue s = []) := by
  constructor
  · intro hk
    have := splitKeyValueFrom_key [] k v hk
    simpa [splitKeyValue] using this
  · intro hs
    exact splitKeyValueFrom_none s 0 s hs

/-- Witness of C11: a value with two equals signs, and a line without any. -/
theorem splitKeyValue_first_equals_witness :
    splitKeyValue ("hw".toList ++ "=".toList ++ "a=b=c".toList) = ["hw".toList, "a=b=c".toList]
    ∧ splitKeyValue "no key here".toList = [] :=
  ⟨(splitKeyValue_first_equals "hw".toList "a=b=c".toList []).1 (by decide),
   (splitKeyValue_first_equals [] [] "no key here".toList).2 (by decide)⟩

theorem splitLinesStep_foldl_unlinesCRLF (ls : List Str)
    (h : ∀ l ∈ ls, '\n' ∉ l ∧ '\r' ∉ l) (done : List Str) :
    (unlinesCRLF ls).foldl splitLinesStep (done, []) = (done ++ ls, []) := by
  induction ls generalizing done with
  | nil => simp [unlinesCRLF]
  | cons l rest ih =>
    have hl := h l (by simp)
    have hrest : ∀ x ∈ rest, '\n' ∉ x ∧ '\r' ∉ x := fun x hx => h x (by simp [hx])
    have e : unlinesCRLF (l :: rest) = l ++ ('\r' :: '\n' :: unlinesCRLF rest) := by
      simp [unlinesCRLF]
    rw [e, List.foldl_append, splitLinesStep_foldl_clean l hl.1 hl.2, List.foldl_cons,
      List.foldl_cons]
    have s1 : splitLinesStep (done, [] ++ l) '\r' = (done, l) := by
      simp [splitLinesStep]
    have s2 : splitLinesStep (done, l) '\n' = (done ++ [l], []) := by
      simp [splitLinesStep]
    rw [s1, s2, ih hrest]
    simp

theorem splitLinesRunes_terminated (ls : List Str) (h : ∀ l ∈ ls, '\n' ∉ l ∧ '\r' ∉ l) :
    splitLinesRunes (unlinesCRLF ls) = ls ∧ splitLinesRunes (unlines ls) = ls := by
  have h1 : splitLinesRunes (unlinesCRLF ls) = ls := by
    simp [splitLinesRunes, splitLinesStep_foldl_unlinesCRLF ls h []]
  have h2 : splitLinesRunes (unlines ls) = ls := by
    simp [splitLinesRunes, splitLinesStep_foldl_unlines ls h []]
  exact ⟨h1, h2⟩

/-- C13, as stated, fails: a line may hold a byte that is not well-formed
UTF-8 (here the single byte `0xFF`, no line feed and no carriage return);
`splitLines` ranges over runes and appends `string(r)`, so the line comes back
as the three bytes of U+FFFD and not as the line itself, with either
termination. -/
theorem splitLines_invalid_byte :
    (10 ∉ [0xFF] ∧ 13 ∉ [0xFF])
    ∧ (splitLines (unlinesB [[0xFF]])).map utf8 = [[0xEF, 0xBF, 0xBD]]
    ∧ (splitLines (unlinesCRLFB [[0xFF]])).map utf8 = [[0xEF, 0xBF, 0xBD]]
    ∧ (splitLines (unlinesB [[0xFF]])).map utf8 ≠ [[0xFF]] := by
  decide

/-- C13, amended: for every list `ls` of lines (byte sequences) without line
feed and carriage return, `splitLines` of the lines each terminated by carriage
return and line feed equals `splitLines` of the lines each terminated by a line
feed, and both are the lines of `ls` as Go decodes them (a byte that is not
part of a well-formed UTF-8 sequence read as U+FFFD), in the same order, empty
lines kept; when the lines are well-formed UTF-8, as the lines of a text are,
both are `ls` itself. -/
theorem splitLines_crlf (ls : List Bytes) (h : ∀ l ∈ ls, 10 ∉ l ∧ 13 ∉ l) :
    splitLines (unlinesCRLFB ls) = splitLines (unlinesB ls)
    ∧ splitLines (unlinesCRLFB ls) = ls.map decodeRunes
    ∧ splitLines (unlinesB ls) = ls.map decodeRunes
    ∧ ((∀ l ∈ ls, validUTF8 l) →
        (splitLines (unlinesCRLFB ls)).map utf8 = ls
        ∧ (splitLines (unlinesB ls)).map utf8 = ls)
    ∧ (∀ ts : List Str, (∀ t ∈ ts, '\n' ∉ t ∧ '\r' ∉ t) →
        splitLines (utf8 (unlinesCRLF ts)) = ts ∧ splitLines (utf8 (unlines ts)) = ts) := by
  have hclean : ∀ t ∈ ls.map decodeRunes, '\n' ∉ t ∧ '\r' ∉ t := by
    intro t ht
    simp only [List.mem_map] at ht
    obtain ⟨l, hl, rfl⟩ := ht
    exact noLineBreak_decodeRunes l (h l hl)
  obtain ⟨h1, h2⟩ := splitLinesRunes_terminated (ls.map decodeRunes) hclean
  have e1 : splitLines (unlinesCRLFB ls) = ls.map decodeRunes := by
    rw [splitLines, decodeRunes_unlinesCRLFB, h1]
  have e2 : splitLines (unlinesB ls) = ls.map decodeRunes := by
    rw [splitLines, decodeRunes_unlinesB, h2]
  refine ⟨e1.trans e2.symm, e1, e2, ?_, ?_⟩
  · intro hv
    have hmap : (ls.map decodeRunes).map utf8 = ls := by
      rw [List.map_map]
      have : ∀ l ∈ ls, (utf8 ∘ decodeRunes) l = l := fun l hl => hv l hl
      rw [List.map_congr_left this]
      simp
    rw [e1, e2]
    exact ⟨hmap, hmap⟩
  · intro ts hts
    rw [splitLines_utf8, splitLines_utf8]
    exact splitLinesRunes_terminated ts hts

/-- Witness of C13 (amended): three lines of text, the second one empty and the
third one with a two-byte character, terminated by carriage return and line
feed. -/
theorem splitLines_crlf_witness :
    (splitLines (unlinesCRLFB [utf8 "name=a".toList, [], utf8 "hw=é".toList])).map utf8
      = [utf8 "name=a".toList, [], utf8 "hw=é".toList] :=
  ((splitLines_crlf [utf8 "name=a".toList, [], utf8 "hw=é".toList] (by decide)).2.2.2.1
    (by decide)).1

/-! ## Unrecognised lines -/

theorem setField_unknown (cfg : VMConfig) (k v : Str) (h : k ∉ knownKeys) :
    setField cfg k v = cfg := by
  unfold setField
  have n0 : ¬ k = "name".toList := fun e => h (by rw [e]; decide)
  rw [if_neg n0]
  have n1 : ¬ k = "cpu".toList := fun e => h (by rw [e]; decide)
  rw [if_neg n1]
  have n2 : ¬ k = "cpuModel".toList := fun e => h (by rw [e]; decide)
  rw [if_neg n2]
  have n3 : ¬ k = "cpuCores".toList := fun e => h (by rw [e]; decide)
  rw [if_neg n3]
  have n4 : ¬ k = "cpuSockets".toList := fun e => h (by rw [e]; decide)
  rw [if_neg n4]
  have n5 : ¬ k = "cpuThreads".toList := fun e => h (by rw [e]; decide)
  rw [if_neg n5]
  have n6 : ¬ k = "cpuFeatures".toList := fun e => h (by rw [e]; decide)
  rw [if_neg n6]
  have n7 : ¬ k = "cpuAccel".toList := fun e => h (by rw [e]; decide)
  rw [if_neg n7]
  have n8 : ¬ k = "cpuAccelerator".toList := fun e => h (by rw [e]; decide)
  rw [if_neg n8]
  have n9 : ¬ k = "ram".toList := fun e => h (by rw [e]; decide)
  rw [if_neg n9]
  have n10 : ¬ k = "disk".toList := fun e => h (by rw [e]; decide)
  rw [if_neg n10]
  have n11 : ¬ k = "gpu".toList := fun e => h (by rw [e]; decide)
  rw [if_neg n11]
  have n12 : ¬ k = "network".toList := fun e => h (by rw [e]; decide)
  rw [if_neg n12]
  have n13 : ¬ k = "hw".toList := fun e => h (by rw [e]; decide)
  rw [if_neg n13]

theorem loadLine_unrecognised (cfg : VMConfig) (line : Str) (h : unrecognised line) :
    loadLine cfg line = cfg := by
  have hno : '=' ∉ line → loadLine cfg line = cfg := by
    intro hne
    have e : splitKeyValue line = [] := splitKeyValueFrom_none line 0 line hne
    unfold loadLine
    split
    · rfl
    · rw [e]
  rcases h with h | h | ⟨k, v, e, hk, hkn⟩
  · exact hno (fun hm => by have := h '=' hm; revert this; decide)
  · exact hno h
  · subst e
    rw [loadLine_key cfg k v hk, setField_unknown cfg k v hkn]

theorem splitLinesStep_foldl_done (s : Str) (done : List Str) (tmp : Str) :
    s.foldl splitLinesStep (done, tmp)
      = (done ++ (s.foldl splitLinesStep ([], tmp)).1, (s.foldl splitLinesStep ([], tmp)).2) := by
  induction s generalizing done tmp with
  | nil => simp
  | cons c cs ih =>
    rw [List.foldl_cons, List.foldl_cons]
    by_cases h1 : c = '\n'
    · have e1 : splitLinesStep (done, tmp) c = (done ++ [tmp], []) := by
        simp [splitLinesStep, h1]
      have e2 : splitLinesStep ([], tmp) c = ([tmp], []) := by
        simp [splitLinesStep, h1]
      rw [e1, e2, ih (done ++ [tmp]) [], ih [tmp] []]
      simp
    · by_cases h2 : c = '\r'
      · have e1 : splitLinesStep (done, tmp) c = (done, tmp) := by
          simp [splitLinesStep, h1, h2]
        have e2 : splitLinesStep ([], tmp) c = ([], tmp) := by
          simp [splitLinesStep, h1, h2]
        rw [e1, e2, ih done tmp]
      · have e1 : splitLinesStep (done, tmp) c = (done, tmp ++ [c]) := by
          simp [splitLinesStep, h1, h2]
        have e2 : splitLinesStep ([], tmp) c = ([], tmp ++ [c]) := by
          simp [splitLinesStep, h1, h2]
        rw [e1, e2, ih done (tmp ++ [c])]

theorem splitLinesStep_foldl_unlines_tmp (pre : List Str) (done : List Str) :
    ((unlines pre).foldl splitLinesStep (done, [])).2 = [] := by
  induction pre generalizing done with
  | nil => simp [unlines]
  | cons l rest ih =>
    have e : unlines (l :: rest) = l ++ ('\n' :: unlines rest) := by
      simp [unlines]
    rw [e, List.foldl_append, List.foldl_cons]
    have e1 : splitLinesStep (l.foldl splitLinesStep (done, [])) '\n'
        = ((l.foldl splitLinesStep (done, [])).1 ++ [(l.foldl splitLinesStep (done, [])).2], []) := by
      simp [splitLinesStep]
    rw [e1]
    exact ih _

/-- The lines that `splitLinesRunes` finds in a text: the lines closed by a line
feed, then the unterminated rest if it is not empty. -/
theorem splitLinesRunes_insert (pre : List Str) (line b : Str) (hl : noLineBreak line) :
    ∃ A B : List Str,
      splitLinesRunes (unlines pre ++ (line ++ '\n' :: b)) = A ++ line :: B
      ∧ splitLinesRunes (unlines pre ++ b) = A ++ B := by
  have hA := splitLinesStep_foldl_unlines_tmp pre []
  have hfold : ∀ x : Str, (unlines pre ++ x).foldl splitLinesStep ([], [])
      = x.foldl splitLinesStep (((unlines pre).foldl splitLinesStep ([], [])).1, []) := by
    intro x
    rw [List.foldl_append]
    congr 1
    exact Prod.ext rfl hA
  generalize ((unlines pre).foldl splitLinesStep ([], [])).1 = A at hfold
  have hline : (line ++ '\n' :: b).foldl splitLinesStep (A, [])
      = b.foldl splitLinesStep (A ++ [line], []) := by
    rw [List.foldl_append, splitLinesStep_foldl_clean line hl.1 hl.2, List.foldl_cons]
    simp [splitLinesStep]
  have h1 := splitLinesStep_foldl_done b (A ++ [line]) []
  have h2 := splitLinesStep_foldl_done b A []
  refine ⟨A, (if (b.foldl splitLinesStep ([], [])).2 ≠ []
      then (b.foldl splitLinesStep ([], [])).1 ++ [(b.foldl splitLinesStep ([], [])).2]
      else (b.foldl splitLinesStep ([], [])).1), ?_, ?_⟩
  · simp only [splitLinesRunes]
    rw [hfold, hline, h1]
    split <;> simp
  · simp only [splitLinesRunes]
    rw [hfold, h2]
    split <;> simp

theorem parseRunes_insert (pre post : List Str) (line : Str)
    (hl : noLineBreak line) (hu : unrecognised line) :
    parseRunes (unlines (pre ++ line :: post)) = parseRunes (unlines (pre ++ post)) := by
  have e1 : unlines (pre ++ line :: post) = unlines pre ++ (line ++ '\n' :: unlines post) := by
    simp [unlines]
  have e2 : unlines (pre ++ post) = unlines pre ++ unlines post := by
    simp [unlines]
  obtain ⟨A, B, hA, hB⟩ := splitLinesRunes_insert pre line (unlines post) hl
  rw [e1, e2, parseRunes, parseRunes, hA, hB, List.foldl_append, List.foldl_append,
    List.foldl_cons, loadLine_unrecognised _ line hu]

theorem utf8_unlines (ls : List Str) : utf8 (unlines ls) = unlinesB (ls.map utf8) := by
  induction ls with
  | nil => rfl
  | cons l rest ih =>
    have e1 : unlines (l :: rest) = l ++ ('\n' :: unlines rest) := by simp [unlines]
    have e2 : unlinesB ((l :: rest).map utf8) = utf8 l ++ 10 :: unlinesB (rest.map utf8) := by
      simp [unlinesB]
    have e3 : utf8 ('\n' :: unlines rest) = 10 :: utf8 (unlines rest) := by
      simp [utf8]
      rfl
    rw [e1, e2, utf8_append, e3, ih]

/-- C12: the editor's descriptor parse is a total function and drops
unrecognised lines: for every file content made of lines (byte sequences,
well-formed UTF-8 or not) closed by a line feed and every line without line
feed and carriage return that the parser reads as blank, as having no equals
sign, or as having a key before its first equals sign that is not one of the
keys of the load switch, inserting the line at any position leaves the parsed
descriptor unchanged, in every field; in particular for lines of text. -/
theorem parseConfig_insert_unrecognised (pre post : List Bytes) (line : Bytes)
    (hl : 10 ∉ line ∧ 13 ∉ line) (hu : unrecognised (decodeRunes line)) :
    parseConfig (unlinesB (pre ++ line :: post)) = parseConfig (unlinesB (pre ++ post))
    ∧ (∀ (tpre tpost : List Str) (t : Str), noLineBreak t → unrecognised t →
        parseConfig (utf8 (unlines (tpre ++ t :: tpost)))
          = parseConfig (utf8 (unlines (tpre ++ tpost)))) := by
  constructor
  · rw [parseConfig_eq_parseRunes, parseConfig_eq_parseRunes, decodeRunes_unlinesB,
      decodeRunes_unlinesB, List.map_append, List.map_append, List.map_cons]
    exact parseRunes_insert _ _ _ (noLineBreak_decodeRunes line hl) hu
  · intro tpre tpost t ht hut
    rw [parseConfig_utf8, parseConfig_utf8]
    exact parseRunes_insert tpre tpost t ht hut

/-- Witness of C12: a line with an unknown key between two known lines. -/
theorem parseConfig_insert_unrecognised_witness :
    parseConfig (unlinesB [utf8 "name=a".toList, utf8 "boot=cd".toList, utf8 "ram=1GB".toList])
      = parseConfig (unlinesB [utf8 "name=a".toList, utf8 "ram=1GB".toList]) :=
  (parseConfig_insert_unrecognised [utf8 "name=a".toList] [utf8 "ram=1GB".toList]
    (utf8 "boot=cd".toList) (by decide)
    (Or.inr (Or.inr ⟨"boot".toList, "cd".toList, by decide, by decide, by decide⟩))).1

/-! ## Disk list codec -/

theorem parseDiskInfo_entry (t p c : Str) (ht : ':' ∉ t) (hc : ':' ∉ c) :
    parseDiskInfo (encodeDisk t p c) = (t, p, c) := by
  have h1 : encodeDisk t p c = t ++ ':' :: (p ++ ':' :: c) := by
    simp [encodeDisk]
  rw [h1]
  simp [parseDiskInfo, splitN2, cutFirst_append_sep ':' t _ ht,
    lastIndex_append_sep ':' p c hc]

theorem foldl_loadDisksStep (rows : List (Str × Str × Str)) (h : ∀ r ∈ rows, plainRow r)
    (acc : List (Str × Str × Str)) :
    (rows.map (fun r => encodeDisk r.1 r.2.1 r.2.2)).foldl loadDisksStep acc = acc ++ rows := by
  induction rows generalizing acc with
  | nil => simp
  | cons r rest ih =>
    obtain ⟨h1, _, h3, _, h5, _⟩ := h r (by simp)
    have hrest : ∀ x ∈ rest, plainRow x := fun x hx => h x (by simp [hx])
    have hstep : loadDisksStep acc (encodeDisk r.1 r.2.1 r.2.2) = acc ++ [r] := by
      simp [loadDisksStep, parseDiskInfo_entry r.1 r.2.1 r.2.2 h1 h5, h3]
    rw [List.map_cons, List.foldl_cons, hstep, ih hrest]
    simp

theorem encodeDisks_plain (rows : List (Str × Str × Str)) (h : ∀ r ∈ rows, plainRow r) :
    encodeDisks rows = joinWith [';'] (rows.map (fun r => encodeDisk r.1 r.2.1 r.2.2)) := by
  have hf : rows.filter (fun r => r.2.1 ≠ []) = rows := by
    apply List.filter_eq_self.mpr
    intro r hr
    simpa using (h r hr).2.2.1
  unfold encodeDisks
  rw [hf]
  rfl

theorem splitChar_encodeDisks (rows : List (Str × Str × Str)) (h : ∀ r ∈ rows, plainRow r)
    (hne : rows ≠ []) :
    splitChar ';' (encodeDisks rows) = rows.map (fun r => encodeDisk r.1 r.2.1 r.2.2) := by
  rw [encodeDisks_plain rows h]
  apply splitChar_joinWith ';' _ (by simpa using hne)
  intro l hl
  simp only [List.mem_map] at hl
  obtain ⟨r, hr, rfl⟩ := hl
  obtain ⟨_, h2, _, h4, _, h6⟩ := h r hr
  simp [encodeDisk, h2, h4, h6]

/-- C14, as stated, fails: a path may hold a semicolon (the claim only asks for
a path that is not empty), and then the split on semicolons cuts the entry in
two: one entry with the path `/d/a;b.qcow2` comes back as two entries. -/
theorem loadDisks_semicolon_path :
    (':' ∉ "QCOW2".toList ∧ ';' ∉ "QCOW2".toList ∧ "/d/a;b.qcow2".toList ≠ []
      ∧ ':' ∉ "10".toList ∧ ';' ∉ "10".toList)
    ∧ (splitChar ';' (encodeDisks [("QCOW2".toList, "/d/a;b.qcow2".toList, "10".toList)])).map
        parseDiskInfo
      = [("QCOW2".toList, "/d/a".toList, []), ("b.qcow2".toList, "10".toList, [])]
    ∧ loadDisks (encodeDisks [("QCOW2".toList, "/d/a;b.qcow2".toList, "10".toList)])
      ≠ [("QCOW2".toList, "/d/a;b.qcow2".toList, "10".toList)] := by
  decide

/-- C14, amended: for every list of disk entries in which each type and each
capacity contains no colon and no semicolon and each path is not empty and
contains no semicolon, encoding each entry as `TYPE:PATH:CAPACITY`, joining with
semicolons and decoding as the disk load of the editor does (split on
semicolons, then `parseDiskInfo` on each piece) returns the same entries in the
same order. -/
theorem loadDisks_encodeDisks (rows : List (Str × Str × Str)) (h : ∀ r ∈ rows, plainRow r) :
    loadDisks (encodeDisks rows) = rows
    ∧ (rows ≠ [] → (splitChar ';' (encodeDisks rows)).map parseDiskInfo = rows) := by
  constructor
  · cases rows with
    | nil => rfl
    | cons r rest =>
      have hne : encodeDisks (r :: rest) ≠ [] := by
        rw [encodeDisks_plain _ h, List.map_cons]
        exact joinWith_ne_nil _ _ _ (by simp [encodeDisk])
      rw [loadDisks, if_pos hne, splitChar_encodeDisks _ h (by simp), foldl_loadDisksStep _ h]
      simp
  · intro hne
    rw [splitChar_encodeDisks rows h hne, List.map_map]
    have : ∀ r ∈ rows, (parseDiskInfo ∘ fun r => encodeDisk r.1 r.2.1 r.2.2) r = r := by
      intro r hr
      obtain ⟨h1, _, _, _, h5, _⟩ := h r hr
      exact parseDiskInfo_entry r.1 r.2.1 r.2.2 h1 h5
    rw [List.map_congr_left this]
    simp

/-- Witness of C14 (amended): a Windows path and a plain path. -/
theorem loadDisks_encodeDisks_witness :
    loadDisks "QCOW2:E:\\VM\\d.qcow2:10240;RAW:/a:1".toList
      = [("QCOW2".toList, "E:\\VM\\d.qcow2".toList, "10240".toList),
         ("RAW".toList, "/a".toList, "1".toList)] :=
  (loadDisks_encodeDisks
    [("QCOW2".toList, "E:\\VM\\d.qcow2".toList, "10240".toList),
     ("RAW".toList, "/a".toList, "1".toList)] (by decide)).1

/-! ## Creation only of missing disk images -/

theorem runGuarded_cons {σ : Type} (sys : Sys σ) (fullAlloc : Bool) (d : Str)
    (rest : List Str) (x : σ × Event)
    (h : runGuarded sys fullAlloc rest x) : runGuarded sys fullAlloc (d :: rest) x := by
  intro args ok hx
  obtain ⟨hok, diskInfo, hm, hrest⟩ := h args ok hx
  exact ⟨hok, diskInfo, List.mem_cons_of_mem _ hm, hrest⟩

theorem cmdArgs_path (fullAlloc : Bool) (dType dPath dCap : Str) :
    (cmdArgs fullAlloc dType dPath dCap).get? 3 = some dPath := by
  simp only [cmdArgs]
  split <;> rfl

theorem mem_annotate_snd {σ : Type} (sys : Sys σ) (st : σ) (tr : List Event) (x : σ × Event)
    (h : x ∈ annotate sys st tr) : x.2 ∈ tr := by
  induction tr generalizing st with
  | nil => simp [annotate] at h
  | cons ev rest ih =>
    simp only [annotate, List.mem_cons] at h
    rcases h with h | h
    · subst h; simp
    · exact List.mem_cons_of_mem _ (ih _ h)

theorem mem_annotate_append {σ : Type} (sys : Sys σ) (st : σ) (a b : List Event) (x : σ × Event)
    (h : x ∈ annotate sys st (a ++ b)) : x ∈ annotate sys st a ∨ x.2 ∈ b := by
  induction a generalizing st with
  | nil => exact Or.inr (mem_annotate_snd sys st b x h)
  | cons ev rest ih =>
    simp only [List.cons_append, annotate, List.mem_cons] at h ⊢
    rcases h with h | h
    · exact Or.inl (Or.inl h)
    · rcases ih _ h with h1 | h1
      · exact Or.inl (Or.inr h1)
      · exact Or.inr h1

theorem diskLoop_runGuarded {σ : Type} (sys : Sys σ) (fullAlloc : Bool) (disks : List Str)
    (st : σ) :
    ∀ x ∈ annotate sys st (diskLoop sys fullAlloc disks st).trace,
      runGuarded sys fullAlloc disks x := by
  induction disks generalizing st with
  | nil => simp [diskLoop, annotate]
  | cons diskInfo rest ih =>
    rcases hp : parseDiskInfo diskInfo with ⟨dType, dPath, dCap⟩
    have first : ∀ (s : σ) (ok : Bool), dPath ≠ [] → sys.notExist dPath s = true →
        (sys.run (cmdArgs fullAlloc dType dPath dCap) s).1 = ok →
        runGuarded sys fullAlloc (diskInfo :: rest)
          (s, Event.run (cmdArgs fullAlloc dType dPath dCap) ok) := by
      intro s ok hne hmiss hok args ok2 hx
      injection hx with ha hb
      subst ha
      subst hb
      refine ⟨hok.symm, diskInfo, by simp, ?_, ?_, Or.inl ⟨?_, ?_⟩⟩
      · rw [hp]; exact hne
      · rw [hp]; exact cmdArgs_path fullAlloc dType dPath dCap
      · rw [hp]; exact hmiss
      · rw [hp]
    have retry : ∀ (s : σ) (ok : Bool), dPath ≠ [] → sys.notExist dPath s = true →
        (sys.run (cmdArgs fullAlloc dType dPath dCap) s).1 = false →
        (sys.run (fallbackArgs dType dPath dCap)
          (sys.run (cmdArgs fullAlloc dType dPath dCap) s).2).1 = ok →
        runGuarded sys fullAlloc (diskInfo :: rest)
          ((sys.run (cmdArgs fullAlloc dType dPath dCap) s).2,
            Event.run (fallbackArgs dType dPath dCap) ok) := by
      intro s ok hne hmiss hfail hok args ok2 hx
      injection hx with ha hb
      subst ha
      subst hb
      refine ⟨hok.symm, diskInfo, by simp, ?_, ?_, Or.inr ⟨s, ?_, ?_, ?_, ?_⟩⟩
      · rw [hp]; exact hne
      · rw [hp]; rfl
      · rw [hp]; exact hmiss
      · rw [hp]; exact hfail
      · rw [hp]
      · rw [hp]
    have other : ∀ (s : σ) (ev : Event), ev.isRun = false →
        runGuarded sys fullAlloc (diskInfo :: rest) (s, ev) := by
      intro s ev hev args ok hx
      simp only at hx
      rw [hx] at hev
      exact absurd hev (by simp [Event.isRun])
    simp only [diskLoop, hp]
    split
    · exact fun x hx => runGuarded_cons sys fullAlloc _ _ x (ih st x hx)
    · rename_i hne
      split
      · rename_i hmiss
        split
        · rename_i h1
          intro x hx
          simp only [Run.after, List.cons_append, List.nil_append, annotate, Event.apply,
            List.mem_cons] at hx
          rcases hx with e | e | hx
          · subst e; exact other _ _ rfl
          · subst e; exact first st true hne hmiss h1
          · exact runGuarded_cons sys fullAlloc _ _ x (ih _ x hx)
        · rename_i h1
          have hf1 : (sys.run (cmdArgs fullAlloc dType dPath dCap) st).1 = false := by
            simpa using h1
          split
          · rename_i h2
            intro x hx
            simp only [Run.after, List.cons_append, List.nil_append, annotate, Event.apply,
              List.mem_cons] at hx
            rcases hx with e | e | e | e | hx
            · subst e; exact other _ _ rfl
            · subst e; exact first st false hne hmiss hf1
            · subst e; exact retry st true hne hmiss hf1 h2
            · subst e; exact other _ _ rfl
            · exact runGuarded_cons sys fullAlloc _ _ x (ih _ x hx)
          · rename_i h2
            have hf2 : (sys.run (fallbackArgs dType dPath dCap)
                (sys.run (cmdArgs fullAlloc dType dPath dCap) st).2).1 = false := by
              simpa using h2
            intro x hx
            simp only [annotate, Event.apply, List.mem_cons, List.not_mem_nil, or_false] at hx
            rcases hx with e | e | e | e
            · subst e; exact other _ _ rfl
            · subst e; exact first st false hne hmiss hf1
            · subst e; exact retry st false hne hmiss hf1 hf2
            · subst e; exact other _ _ rfl
      · intro x hx
        simp only [Run.after, List.cons_append, List.nil_append, annotate, Event.apply,
          List.mem_cons] at hx
        rcases hx with e | hx
        · subst e; exact other _ _ rfl
        · exact runGuarded_cons sys fullAlloc _ _ x (ih _ x hx)

theorem saveContent_runGuarded {σ : Type} (sys : Sys σ) (configDir : Str) (fullAlloc : Bool)
    (config : VMConfig) (st : σ) :
    ∀ x ∈ annotate sys st (saveContent sys configDir fullAlloc config st).trace,
      runGuarded sys fullAlloc (splitChar ';' config.Disk) x := by
  have hd := diskLoop_runGuarded sys fullAlloc (splitChar ';' config.Disk) st
  have tail : ∀ (x : σ × Event) (b : List Event), (∀ ev ∈ b, ev.isRun = false) →
      x ∈ annotate sys st ((diskLoop sys fullAlloc (splitChar ';' config.Disk) st).trace ++ b) →
      runGuarded sys fullAlloc (splitChar ';' config.Disk) x := by
    intro x b hb hx
    rcases mem_annotate_append sys st _ b x hx with h | h
    · exact hd x h
    · intro args ok he
      have := hb _ h
      rw [he] at this
      exact absurd this (by simp [Event.isRun])
  simp only [saveContent]
  split
  · exact hd
  · split
    · intro x hx
      refine tail x _ ?_ hx
      intro ev hev
      simp only [List.mem_cons, List.mem_singleton, List.not_mem_nil, or_false] at hev
      rcases hev with e | e | e | e <;> subst e <;> rfl
    · intro x hx
      refine tail x _ ?_ hx
      intro ev hev
      simp only [List.mem_cons, List.mem_singleton, List.not_mem_nil, or_false] at hev
      rcases hev with e | e <;> subst e <;> rfl

theorem saveBtn_runGuarded {σ : Type} (sys : Sys σ) (configDir vmName : Str)
    (fullAlloc : Bool) (config : VMConfig) (st : σ) :
    ∀ x ∈ annotate sys st (saveBtn sys configDir vmName fullAlloc config st).trace,
      runGuarded sys fullAlloc (splitChar ';' config.Disk) x := by
  have other : ∀ (s : σ) (ev : Event), ev.isRun = false →
      runGuarded sys fullAlloc (splitChar ';' config.Disk) (s, ev) := by
    intro s ev hev args ok hx
    simp only at hx
    rw [hx] at hev
    exact absurd hev (by simp [Event.isRun])
  simp only [saveBtn]
  split
  · intro x hx
    simp only [annotate, List.mem_cons, List.not_mem_nil, or_false] at hx
    subst hx
    exact other _ _ rfl
  · split
    · split
      · intro x hx
        simp only [Run.after, List.cons_append, List.nil_append, annotate, Event.apply,
          List.mem_cons] at hx
        rcases hx with e | hx
        · subst e; exact other _ _ rfl
        · exact saveContent_runGuarded sys configDir fullAlloc config _ x hx
      · intro x hx
        simp only [annotate, Event.apply, List.mem_cons, List.not_mem_nil, or_false] at hx
        rcases hx with e | e
        · subst e; exact other _ _ rfl
        · subst e; exact other _ _ rfl
    · exact saveContent_runGuarded sys configDir fullAlloc config st

/-- C15, as stated, fails: the retry of a failed creation is issued without a
second check of the path.  With a tool that fails on the preallocation option
after it has begun to write the image, the save of one missing disk entry issues
its second create command in a state in which the path of the entry exists. -/
theorem create_retry_existing :
    (annotate (leakySys (fun args => decide ("-o".toList ∉ args))) []
      (saveBtn (leakySys (fun args => decide ("-o".toList ∉ args))) "cfg".toList [] true
        { Name := "vm".toList, Disk := "QCOW2:/d/a.qcow2:10".toList } []).trace).take 3
      = [([], Event.stat "/d/a.qcow2".toList true),
         ([], Event.run ["create".toList, "-f".toList, "qcow2".toList, "/d/a.qcow2".toList,
            "10M".toList, "-o".toList, "preallocation=full".toList] false),
         ([("/d/a.qcow2".toList, [])],
          Event.run ["create".toList, "-f".toList, "qcow2".toList, "/d/a.qcow2".toList,
            "10M".toList] true)]
    ∧ (leakySys (fun args => decide ("-o".toList ∉ args))).notExist "/d/a.qcow2".toList
        [("/d/a.qcow2".toList, [])] = false := by
  decide

/-- C15, amended: in the save step the first create command of a disk entry is
issued only if the path of the entry is not empty and does not exist at that
moment, and the retry only after that first command has failed, in the state it
left, without a second check.  Every tool invocation of the trace, replayed from
the first state, is one of these two for an entry of the disk list, with the
argument list of the source and the result of the tool in its state; so the
retry is issued for a missing path whenever the failed command left the path
missing, and with a tool that creates nothing when it fails no create command is
issued for a path that exists at that moment.  An entry with an empty path is
skipped, and an entry whose path exists is only checked. -/
theorem create_only_missing {σ : Type} (sys : Sys σ) (configDir vmName : Str)
    (fullAlloc : Bool) (config : VMConfig) (st : σ) :
    (∀ x ∈ annotate sys st (saveBtn sys configDir vmName fullAlloc config st).trace,
      ∀ args ok, x.2 = Event.run args ok →
        ok = (sys.run args x.1).1
        ∧ ∃ diskInfo ∈ splitChar ';' config.Disk, (parseDiskInfo diskInfo).2.1 ≠ []
          ∧ args.get? 3 = some (parseDiskInfo diskInfo).2.1
          ∧ ((sys.notExist (parseDiskInfo diskInfo).2.1 x.1 = true
                ∧ args = cmdArgs fullAlloc (parseDiskInfo diskInfo).1
                    (parseDiskInfo diskInfo).2.1 (parseDiskInfo diskInfo).2.2)
              ∨ ∃ s0, sys.notExist (parseDiskInfo diskInfo).2.1 s0 = true
                  ∧ (sys.run (cmdArgs fullAlloc (parseDiskInfo diskInfo).1
                      (parseDiskInfo diskInfo).2.1 (parseDiskInfo diskInfo).2.2) s0).1 = false
                  ∧ x.1 = (sys.run (cmdArgs fullAlloc (parseDiskInfo diskInfo).1
                      (parseDiskInfo diskInfo).2.1 (parseDiskInfo diskInfo).2.2) s0).2
                  ∧ args = fallbackArgs (parseDiskInfo diskInfo).1
                      (parseDiskInfo diskInfo).2.1 (parseDiskInfo diskInfo).2.2))
    ∧ ((∀ (args : List Str) (s : σ) (p : Str), (sys.run args s).1 = false →
          sys.notExist p s = true → sys.notExist p (sys.run args s).2 = true) →
        ∀ x ∈ annotate sys st (saveBtn sys configDir vmName fullAlloc config st).trace,
          ∀ args ok, x.2 = Event.run args ok →
            ∃ diskInfo ∈ splitChar ';' config.Disk, (parseDiskInfo diskInfo).2.1 ≠ []
              ∧ args.get? 3 = some (parseDiskInfo diskInfo).2.1
              ∧ sys.notExist (parseDiskInfo diskInfo).2.1 x.1 = true)
    ∧ (∀ (diskInfo : Str) (rest : List Str) (s : σ), (parseDiskInfo diskInfo).2.1 = [] →
        diskLoop sys fullAlloc (diskInfo :: rest) s = diskLoop sys fullAlloc rest s)
    ∧ (∀ (diskInfo : Str) (rest : List Str) (s : σ), (parseDiskInfo diskInfo).2.1 ≠ [] →
        sys.notExist (parseDiskInfo diskInfo).2.1 s = false →
        diskLoop sys fullAlloc (diskInfo :: rest) s
          = (diskLoop sys fullAlloc rest s).after
              [Event.stat (parseDiskInfo diskInfo).2.1 false]) := by
  have hA := saveBtn_runGuarded sys configDir vmName fullAlloc config st
  refine ⟨hA, ?_, ?_, ?_⟩
  · intro hfail x hx args ok he
    obtain ⟨_, diskInfo, hm, hne, hget, hs⟩ := hA x hx args ok he
    refine ⟨diskInfo, hm, hne, hget, ?_⟩
    rcases hs with ⟨hmiss, _⟩ | ⟨s0, hmiss, hf, hs, _⟩
    · exact hmiss
    · rw [hs]; exact hfail _ s0 _ hf hmiss
  · intro diskInfo rest s hp
    rcases hq : parseDiskInfo diskInfo with ⟨dType, dPath, dCap⟩
    rw [hq] at hp
    simp only at hp
    simp only [diskLoop, hq, hp, if_true]
  · intro diskInfo rest s hp hex
    rcases hq : parseDiskInfo diskInfo with ⟨dType, dPath, dCap⟩
    rw [hq] at hp hex
    simp only at hp hex
    simp only [diskLoop, hq, if_neg hp, hex, Bool.false_eq_true, if_false]

theorem simpleSys_failed_run (tool : List Str → Bool) (args : List Str) (s : Files) (p : Str)
    (hf : ((simpleSys tool).run args s).1 = false)
    (hm : (simpleSys tool).notExist p s = true) :
    (simpleSys tool).notExist p ((simpleSys tool).run args s).2 = true := by
  simp only [simpleSys] at hf hm ⊢
  split at hf
  · exact absurd hf (by simp)
  · rename_i h
    rw [if_neg h]
    exact hm

/-- Witness of C15 (amended): an entry whose image exists is only checked; and
with a tool that rejects the preallocation option and creates nothing when it
fails, the retry for a missing image is made in a state in which the image is
still missing. -/
theorem create_only_missing_witness :
    diskLoop (simpleSys (fun _ => true)) false ["RAW:/d/b.img:5".toList]
        [("/d/b.img".toList, [])]
      = (diskLoop (simpleSys (fun _ => true)) false [] [("/d/b.img".toList, [])]).after
          [Event.stat "/d/b.img".toList false]
    ∧ ∃ diskInfo ∈ splitChar ';' "QCOW2:/d/a.qcow2:10".toList,
        (parseDiskInfo diskInfo).2.1 ≠ []
        ∧ ["create".toList, "-f".toList, "qcow2".toList, "/d/a.qcow2".toList,
            "10M".toList].get? 3 = some (parseDiskInfo diskInfo).2.1
        ∧ (simpleSys (fun args => decide ("-o".toList ∉ args))).notExist
            (parseDiskInfo diskInfo).2.1 [] = true :=
  ⟨(create_only_missing (simpleSys (fun _ => true)) [] [] false {} []).2.2.2
     "RAW:/d/b.img:5".toList [] [("/d/b.img".toList, [])] (by decide) (by decide),
   (create_only_missing (simpleSys (fun args => decide ("-o".toList ∉ args))) "cfg".toList []
      true { Name := "vm".toList, Disk := "QCOW2:/d/a.qcow2:10".toList } []).2.1
     (simpleSys_failed_run _)
     ([], Event.run ["create".toList, "-f".toList, "qcow2".toList, "/d/a.qcow2".toList,
        "10M".toList] true)
     (by decide) _ true rfl⟩

/-! ## The list parser on a saved descriptor -/

theorem dropWhile_isSpace_mem (s : Str) (h : ∃ c ∈ s, isSpace c = false) :
    ∃ c ∈ s.dropWhile isSpace, isSpace c = false := by
  induction s with
  | nil => obtain ⟨c, hc, _⟩ := h; simp at hc
  | cons x xs ih =>
    by_cases hx : isSpace x = true
    · obtain ⟨c, hc, hcs⟩ := h
      have hcx : c ∈ xs := by
        rcases List.mem_cons.mp hc with e | e
        · rw [e, hx] at hcs; exact absurd hcs (by simp)
        · exact e
      simpa [List.dropWhile_cons, hx] using ih ⟨c, hcx, hcs⟩
    · have hx2 : isSpace x = false := by simpa using hx
      exact ⟨x, by simp [List.dropWhile_cons, hx2], hx2⟩

theorem trimSpace_ne_nil (s : Str) (h : ∃ c ∈ s, isSpace c = false) : trimSpace s ≠ [] := by
  obtain ⟨c, hc, hcs⟩ := dropWhile_isSpace_mem s h
  unfold trimSpace
  intro e
  have e2 : (s.dropWhile isSpace).reverse.dropWhile isSpace = [] := by
    simpa using e
  rw [List.dropWhile_eq_nil_iff] at e2
  have := e2 c (by simpa using hc)
  rw [hcs] at this
  exact absurd this (by simp)

theorem dropWhile_isSpace_self (l : Str) :
    l.dropWhile isSpace = l ↔ ∀ c, l.head? = some c → isSpace c = false := by
  cases l with
  | nil => simp
  | cons x xs =>
    rw [List.dropWhile_eq_self_iff]
    simp

theorem trimSpace_eq_self_iff (s : Str) : trimSpace s = s ↔ noOuterSpace s := by
  unfold noOuterSpace trimSpace
  constructor
  · intro h
    have hsub1 : ((s.dropWhile isSpace).reverse.dropWhile isSpace).Sublist
        (s.dropWhile isSpace).reverse := List.dropWhile_sublist _
    have hsub2 : (s.dropWhile isSpace).Sublist s := List.dropWhile_sublist _
    have hlen : s.length ≤ (s.dropWhile isSpace).length := by
      have h1 := hsub1.length_le
      have h2 := congrArg List.length h
      simp only [List.length_reverse] at h1 h2
      omega
    have e1 : s.dropWhile isSpace = s := hsub2.eq_of_length_le hlen
    rw [e1] at h
    have e2 : s.reverse.dropWhile isSpace = s.reverse := by
      have := congrArg List.reverse h
      simpa using this
    refine ⟨(dropWhile_isSpace_self s).mp e1, ?_⟩
    have := (dropWhile_isSpace_self s.reverse).mp e2
    simpa [List.head?_reverse] using this
  · intro ⟨h1, h2⟩
    have e1 : s.dropWhile isSpace = s := (dropWhile_isSpace_self s).mpr h1
    have e2 : s.reverse.dropWhile isSpace = s.reverse :=
      (dropWhile_isSpace_self s.reverse).mpr (by simpa [List.head?_reverse] using h2)
    rw [e1, e2, List.reverse_reverse]

theorem listLine_key (cfg : VMConfig) (k v : Str) (hk : '=' ∉ k) :
    listLine cfg (k ++ '=' :: v) =
      if trimSpace k = "name".toList then { cfg with Name := trimSpace v }
      else if trimSpace k = "cpuModel".toList then { cfg with CPUModel := trimSpace v }
      else cfg := by
  have hne : trimSpace (k ++ '=' :: v) ≠ [] :=
    trimSpace_ne_nil _ ⟨'=', by simp, by decide⟩
  simp only [listLine, if_neg hne, splitN2, cutFirst_append_sep '=' k v hk]

theorem splitChar_unlines (ls : List Str) (h : ∀ l ∈ ls, '\n' ∉ l) :
    splitChar '\n' (unlines ls) = ls ++ [[]] := by
  induction ls with
  | nil => rfl
  | cons l rest ih =>
    have e : unlines (l :: rest) = l ++ ('\n' :: unlines rest) := by
      simp [unlines]
    rw [e, splitChar_append_sep '\n' l _ (h l (by simp)),
      ih (fun x hx => h x (by simp [hx]))]
    simp

theorem listConfig_configContent (d : VMConfig) (h : d.singleLine) :
    listConfig (configContent d)
      = { Name := trimSpace d.Name, CPUModel := trimSpace d.CPUModel } := by
  obtain ⟨h1, h2, h3, h4, h5, h6, h7, h8, h9, h10, h11, h12, h13⟩ := h
  have hl : ∀ l ∈ configLines d, '\n' ∉ l := by
    intro l hl
    simp only [configLines, List.mem_cons, List.mem_singleton, List.not_mem_nil, or_false] at hl
    rcases hl with e | e | e | e | e | e | e | e | e | e | e | e | e <;> subst e <;>
      refine (noLineBreak_key _ _ (by decide) ?_).1 <;> assumption
  have e1 : ∀ (cfg : VMConfig) (v : Str),
      listLine cfg ("name=".toList ++ v) = { cfg with Name := trimSpace v } :=
    fun cfg v => (listLine_key cfg "name".toList v (by decide)).trans rfl
  have e2 : ∀ (cfg : VMConfig) (v : Str),
      listLine cfg ("cpuModel=".toList ++ v) = { cfg with CPUModel := trimSpace v } :=
    fun cfg v => (listLine_key cfg "cpuModel".toList v (by decide)).trans rfl
  have e3 : ∀ (cfg : VMConfig) (v : Str),
      listLine cfg ("cpuCores=".toList ++ v) = cfg :=
    fun cfg v => (listLine_key cfg "cpuCores".toList v (by decide)).trans rfl
  have e4 : ∀ (cfg : VMConfig) (v : Str),
      listLine cfg ("cpuSockets=".toList ++ v) = cfg :=
    fun cfg v => (listLine_key cfg "cpuSockets".toList v (by decide)).trans rfl
  have e5 : ∀ (cfg : VMConfig) (v : Str),
      listLine cfg ("cpuThreads=".toList ++ v) = cfg :=
    fun cfg v => (listLine_key cfg "cpuThreads".toList v (by decide)).trans rfl
  have e6 : ∀ (cfg : VMConfig) (v : Str),
      listLine cfg ("cpuFeatures=".toList ++ v) = cfg :=
    fun cfg v => (listLine_key cfg "cpuFeatures".toList v (by decide)).trans rfl
  have e7 : ∀ (cfg : VMConfig) (v : Str),
      listLine cfg ("cpuAccel=".toList ++ v) = cfg :=
    fun cfg v => (listLine_key cfg "cpuAccel".toList v (by decide)).trans rfl
  have e8 : ∀ (cfg : VMConfig) (v : Str),
      listLine cfg ("cpuAccelerator=".toList ++ v) = cfg :=
    fun cfg v => (listLine_key cfg "cpuAccelerator".toList v (by decide)).trans rfl
  have e9 : ∀ (cfg : VMConfig) (v : Str),
      listLine cfg ("ram=".toList ++ v) = cfg :=
    fun cfg v => (listLine_key cfg "ram".toList v (by decide)).trans rfl
  have e10 : ∀ (cfg : VMConfig) (v : Str),
      listLine cfg ("disk=".toList ++ v) = cfg :=
    fun cfg v => (listLine_key cfg "disk".toList v (by decide)).trans rfl
  have e11 : ∀ (cfg : VMConfig) (v : Str),
      listLine cfg ("gpu=".toList ++ v) = cfg :=
    fun cfg v => (listLine_key cfg "gpu".toList v (by decide)).trans rfl
  have e12 : ∀ (cfg : VMConfig) (v : Str),
      listLine cfg ("network=".toList ++ v) = cfg :=
    fun cfg v => (listLine_key cfg "network".toList v (by decide)).trans rfl
  have e13 : ∀ (cfg : VMConfig) (v : Str),
      listLine cfg ("hw=".toList ++ v) = cfg :=
    fun cfg v => (listLine_key cfg "hw".toList v (by decide)).trans rfl
  have e0 : ∀ cfg : VMConfig, listLine cfg [] = cfg := fun _ => rfl
  rw [listConfig, configContent_eq_unlines, splitChar_unlines _ hl]
  simp only [configLines, List.cons_append, List.nil_append, List.foldl_cons, List.foldl_nil]
  rw [e1, e2, e3, e4, e5, e6, e7, e8, e9, e10, e11, e12, e13, e0]

theorem listConfig_agrees_iff (d : VMConfig) (h : d.singleLine) :
    ((listConfig (configContent d)).Name = (parseConfig (utf8 (configContent d))).Name
        ↔ noOuterSpace d.Name)
    ∧ ((listConfig (configContent d)).CPUModel
          = (parseConfig (utf8 (configContent d))).CPUModel
        ↔ noOuterSpace d.CPUModel) := by
  have hlist := listConfig_configContent d h
  have hedit : parseConfig (utf8 (configContent d)) = { d with CPU := [] } :=
    parseConfig_saved d h
  constructor
  · rw [hlist, hedit]
    exact trimSpace_eq_self_iff d.Name
  · rw [hlist, hedit]
    exact trimSpace_eq_self_iff d.CPUModel

set_option maxRecDepth 100000 in
/-- C16: the list parser and the editor disagree on a saved descriptor whose
name starts with a blank and has no line break in any field.  The save step
writes the descriptor to the file of the name with the blank, and the editor's
parser reads the name with the blank back from the written bytes; `loadVMConfigs`
lists the name without the blank, which is not the name of the descriptor, and
the path that the list window builds from the listed name, to open the editor
and to remove the machine, does not exist after the save. -/
theorem loadVMConfigs_trims_name :
    VMConfig.singleLine { Name := " vm".toList, CPUModel := "qemu64".toList }
    ∧ (saveBtn (simpleSys (fun _ => true)) "/c".toList [] false
        { Name := " vm".toList, CPUModel := "qemu64".toList } []).state
      = [("/c/ vm.conf".toList,
          configContent { Name := " vm".toList, CPUModel := "qemu64".toList })]
    ∧ (parseConfig (utf8 (configContent
        { Name := " vm".toList, CPUModel := "qemu64".toList }))).Name = " vm".toList
    ∧ (loadVMConfigs [some (configContent
        { Name := " vm".toList, CPUModel := "qemu64".toList })]).map VMConfig.Name
      = ["vm".toList]
    ∧ (loadVMConfigs [some (configContent
        { Name := " vm".toList, CPUModel := "qemu64".toList })]).map VMConfig.Name
      ≠ [" vm".toList]
    ∧ (simpleSys (fun _ => true)).notExist
        ((simpleSys (fun _ => true)).join "/c".toList ("vm".toList ++ ".conf".toList))
        (saveBtn (simpleSys (fun _ => true)) "/c".toList [] false
          { Name := " vm".toList, CPUModel := "qemu64".toList } []).state = true := by
  decide

end WinQemu
